import Mathlib

/-!
# Verification of the 2-D BDS edge-state kernel

Shallow embedding of `src/BDS/hydro_bds_edge_state_2D.cpp` (the
Bell-Dawson-Shubin edge-state reconstruction for scalar advection on a
uniform 2-D Cartesian grid).  Machine `Real` arithmetic is modelled by
exact rational arithmetic; logical arrays indexed by integer cell
coordinates are modelled as total functions `ℤ → ℤ → ℚ`.

The embedding mirrors the three stages of the kernel:
* the bicubic corner interpolation `sint`;
* `ComputeSlopes` with its constrained iterative limiter
  (initial clamp followed by three redistribution sweeps);
* `ComputeConc` (the Gamma integrals and the edge-state assembly),
  together with the driver `ComputeEdgeState` and its conservative-form
  configuration check.
-/

namespace BDS

/-- A cell-centred (or face-centred) logical array: value at index `(i,j)`. -/
def Grid : Type := ℤ → ℤ → ℚ

/-- The literal tolerance `eps = 1.0e-8` from the source file. -/
def epsq : ℚ := 1 / 100000000

/-- Model of `std::copysign(1.0, x)` on exact numbers: `-1` for negative `x`,
`+1` otherwise (in particular `+1` at zero). -/
def sgndifOf (x : ℚ) : ℚ := if x < 0 then -1 else 1

/-! ## Corner interpolation (`ComputeSlopes`, first loop) -/

/-- Bicubic interpolation of cell-centred data to the corner `(i,j)`
(the lower-left corner of cell `(i,j)`), as in the first `ParallelFor`
of `BDS::ComputeSlopes`. -/
def sint (s : Grid) (i j : ℤ) : ℚ :=
  (s (i-2) (j-2) + s (i-2) (j+1) + s (i+1) (j-2) + s (i+1) (j+1)
    - 7 * (s (i-2) (j-1) + s (i-2) j + s (i-1) (j-2) + s i (j-2)
           + s (i-1) (j+1) + s i (j+1) + s (i+1) (j-1) + s (i+1) j)
    + 49 * (s (i-1) (j-1) + s i (j-1) + s (i-1) j + s i j)) / 144

/-! ## Unlimited slopes -/

/-- Unlimited slope `sx` (component 0) before the limiter. -/
def sxUnlim (s : Grid) (hx : ℚ) (i j : ℤ) : ℚ :=
  (1/2) * (sint s (i+1) (j+1) + sint s (i+1) j - sint s i (j+1) - sint s i j) / hx

/-- Unlimited slope `sy` (component 1) before the limiter. -/
def syUnlim (s : Grid) (hy : ℚ) (i j : ℤ) : ℚ :=
  (1/2) * (sint s (i+1) (j+1) - sint s (i+1) j + sint s i (j+1) - sint s i j) / hy

/-- Unlimited cross slope `sxy` (component 2) before the limiter. -/
def sxyUnlim (s : Grid) (hx hy : ℚ) (i j : ℤ) : ℚ :=
  (sint s (i+1) (j+1) - sint s (i+1) j - sint s i (j+1) + sint s i j) / (hx * hy)

/-! ## The constrained limiter

Corner `m : Fin 4` of this development corresponds to `sc(m+1)` of the
source (`sc(1) = --`, `sc(2) = -+`, `sc(3) = +-`, `sc(4) = ++`), and the
corners are processed in the source order `1,2,3,4`. -/

/-- The four reconstructed corner values of cell `(i,j)` implied by the
unlimited bilinear-plus-cross-term fit. -/
def scInit (s : Grid) (hx hy : ℚ) (i j : ℤ) : Fin 4 → ℚ :=
  fun m =>
    match m with
    | 3 => s i j + (1/2) * (hx * sxUnlim s hx i j + hy * syUnlim s hy i j)
            + (1/4) * hx * hy * sxyUnlim s hx hy i j
    | 2 => s i j + (1/2) * (hx * sxUnlim s hx i j - hy * syUnlim s hy i j)
            - (1/4) * hx * hy * sxyUnlim s hx hy i j
    | 1 => s i j - (1/2) * (hx * sxUnlim s hx i j - hy * syUnlim s hy i j)
            - (1/4) * hx * hy * sxyUnlim s hx hy i j
    | 0 => s i j - (1/2) * (hx * sxUnlim s hx i j + hy * syUnlim s hy i j)
            + (1/4) * hx * hy * sxyUnlim s hx hy i j

/-- Envelope lower bound `smin(m+1)`: minimum of the four cell centres adjacent to corner `m`. -/
def sminF (s : Grid) (i j : ℤ) : Fin 4 → ℚ :=
  fun m =>
    match m with
    | 3 => min (min (s i j) (s (i+1) j)) (min (s i (j+1)) (s (i+1) (j+1)))
    | 2 => min (min (s i j) (s (i+1) j)) (min (s i (j-1)) (s (i+1) (j-1)))
    | 1 => min (min (s i j) (s (i-1) j)) (min (s i (j+1)) (s (i-1) (j+1)))
    | 0 => min (min (s i j) (s (i-1) j)) (min (s i (j-1)) (s (i-1) (j-1)))

/-- Envelope upper bound `smax(m+1)`: maximum of the four cell centres adjacent to corner `m`. -/
def smaxF (s : Grid) (i j : ℤ) : Fin 4 → ℚ :=
  fun m =>
    match m with
    | 3 => max (max (s i j) (s (i+1) j)) (max (s i (j+1)) (s (i+1) (j+1)))
    | 2 => max (max (s i j) (s (i+1) j)) (max (s i (j-1)) (s (i+1) (j-1)))
    | 1 => max (max (s i j) (s (i-1) j)) (max (s i (j+1)) (s (i-1) (j+1)))
    | 0 => max (max (s i j) (s (i-1) j)) (max (s i (j-1)) (s (i-1) (j-1)))

/-- The initial clamp `sc(mm) = max(min(sc(mm), smax(mm)), smin(mm))`. -/
def scClamp (s : Grid) (hx hy : ℚ) (i j : ℤ) : Fin 4 → ℚ :=
  fun m => max (min (scInit s hx hy i j m) (smaxF s i j m)) (sminF s i j m)

/-- One per-corner update of a limiter sweep, acting on the state
`(sumdif, kdp, sc)`.  `sg` is the sweep's `sgndif` and `d` the vector of
deviations `diff` computed at sweep entry. -/
def corner (sg : ℚ) (d lo hi : Fin 4 → ℚ) (m : Fin 4)
    (st : ℚ × ℚ × (Fin 4 → ℚ)) : ℚ × ℚ × (Fin 4 → ℚ) :=
  let S := st.1
  let kdp := st.2.1
  let c := st.2.2
  let div : ℚ := if kdp < 1 then 1 else kdp
  let redfac : ℚ := if epsq < d m then S * sg / div else 0
  let kdp' : ℚ := if epsq < d m then kdp - 1 else kdp
  let redmax : ℚ := if 0 < sg then c m - lo m else hi m - c m
  let red : ℚ := min redfac redmax
  (S - red * sg, kdp', Function.update c m (c m - red * sg))

/-- The four per-corner updates of one sweep, in source order. -/
def chain4 (sg : ℚ) (d lo hi : Fin 4 → ℚ) (st : ℚ × ℚ × (Fin 4 → ℚ)) :
    ℚ × ℚ × (Fin 4 → ℚ) :=
  corner sg d lo hi 3 (corner sg d lo hi 2 (corner sg d lo hi 1 (corner sg d lo hi 0 st)))

/-- The residual `sumdif = (sumloc - s)*4` computed at sweep entry. -/
def sumdifInit (s0 : ℚ) (c : Fin 4 → ℚ) : ℚ :=
  ((1/4) * (c 3 + c 2 + c 1 + c 0) - s0) * 4

/-- The count `kdp` of corners whose deviation exceeds `eps`. -/
def kdpInit (d : Fin 4 → ℚ) : ℚ :=
  (if epsq < d 0 then (1:ℚ) else 0) + (if epsq < d 1 then 1 else 0)
    + (if epsq < d 2 then 1 else 0) + (if epsq < d 3 then 1 else 0)

/-- One full limiter sweep (one iteration `ll` of the source's
`for(int ll=1; ll<=3; ++ll)` loop) on the corner values of a cell. -/
def sweep (s0 : ℚ) (lo hi : Fin 4 → ℚ) (c : Fin 4 → ℚ) : Fin 4 → ℚ :=
  let sumdif := sumdifInit s0 c
  let sg := sgndifOf sumdif
  let d : Fin 4 → ℚ := fun m => (c m - s0) * sg
  (chain4 sg d lo hi (sumdif, kdpInit d, c)).2.2

/-- One limiter sweep of cell `(i,j)` of the grid. -/
def sweepCell (s : Grid) (i j : ℤ) (c : Fin 4 → ℚ) : Fin 4 → ℚ :=
  sweep (s i j) (sminF s i j) (smaxF s i j) c

/-- Corner values after the initial clamp and `n` limiter sweeps. -/
def scAfter (s : Grid) (hx hy : ℚ) (i j : ℤ) (n : ℕ) : Fin 4 → ℚ :=
  (sweepCell s i j)^[n] (scClamp s hx hy i j)

/-- Corner values at the end of the limiter (clamp plus three sweeps). -/
def scLimited (s : Grid) (hx hy : ℚ) (i j : ℤ) : Fin 4 → ℚ :=
  scAfter s hx hy i j 3

/-- The slope array produced by `BDS::ComputeSlopes` (the source has
`limit_slopes = true`, so the final slopes are re-derived from the
limited corner values). -/
def slope (s : Grid) (hx hy : ℚ) (i j : ℤ) : Fin 3 → ℚ :=
  fun comp =>
    let c := scLimited s hx hy i j
    match comp with
    | 0 => (1/2) * (c 3 + c 2 - c 0 - c 1) / hx
    | 1 => (1/2) * (c 3 + c 1 - c 0 - c 2) / hy
    | 2 => (c 0 + c 3 - c 1 - c 2) / (hx * hy)

/-! ## `ComputeConc`: Gamma integrals and edge states

These take the slope array as an input (`slope_mf` in the source), so
they are parametrised by an arbitrary slope field `slp`. -/

/-- Gamma plus for flux F (x-faces). -/
def gampX (s u v : Grid) (slp : ℤ → ℤ → Fin 3 → ℚ) (hx hy dt : ℚ) (i j : ℤ) : ℚ :=
  let iup : ℤ := if 0 < u i j then i - 1 else i
  let isign : ℚ := if 0 < u i j then 1 else -1
  let vtrans := v iup (j+1)
  let u1 := u i j
  let jup : ℤ := if 0 < vtrans then j else j + 1
  let jsign : ℚ := if 0 < vtrans then 1 else -1
  let u2 : ℚ := if 0 < vtrans then u i j
                else (if 0 < u i j * u i (j+1) then u i (j+1) else 0)
  let vv := v iup (j+1)
  let hxs := hx * isign
  let hys := hy * jsign
  s iup jup
    + (hxs * (1/2) - (u1 + u2) * dt / 3) * slp iup jup 0
    + (hys * (1/2) - vv * dt / 3) * slp iup jup 1
    + (3 * hxs * hys - 2 * (u1 + u2) * dt * hys - 2 * vv * hxs * dt
        + vv * (2 * u2 + u1) * dt * dt) * slp iup jup 2 / 12

/-- Gamma minus for flux F (x-faces). -/
def gammX (s u v : Grid) (slp : ℤ → ℤ → Fin 3 → ℚ) (hx hy dt : ℚ) (i j : ℤ) : ℚ :=
  let iup : ℤ := if 0 < u i j then i - 1 else i
  let isign : ℚ := if 0 < u i j then 1 else -1
  let vtrans := v iup j
  let u1 := u i j
  let jup : ℤ := if 0 < vtrans then j - 1 else j
  let jsign : ℚ := if 0 < vtrans then 1 else -1
  let u2 : ℚ := if 0 < vtrans then
                  (if 0 < u i j * u i (j-1) then u i (j-1) else 0)
                else u i j
  let vv := v iup j
  let hxs := hx * isign
  let hys := hy * jsign
  s iup jup
    + (hxs * (1/2) - (u1 + u2) * dt / 3) * slp iup jup 0
    + (hys * (1/2) - vv * dt / 3) * slp iup jup 1
    + (3 * hxs * hys - 2 * (u1 + u2) * dt * hys - 2 * vv * hxs * dt
        + vv * (2 * u2 + u1) * dt * dt) * slp iup jup 2 / 12

/-- The x-edge state `siphj(i,j)` written by `BDS::ComputeConc`. -/
def xedgeOf (s u v force : Grid) (slp : ℤ → ℤ → Fin 3 → ℚ) (hx hy dt : ℚ)
    (i j : ℤ) : ℚ :=
  let iup : ℤ := if 0 < u i j then i - 1 else i
  let isign : ℚ := if 0 < u i j then 1 else -1
  let gamp := gampX s u v slp hx hy dt i j
  let gamm := gammX s u v slp hx hy dt i j
  let vdif := (1/2) * dt * (v iup (j+1) * gamp - v iup j * gamm) / hy
  let stem := s iup j + (isign * hx - u i j * dt) * (1/2) * slp iup j 0
  let vaddif := stem * (1/2) * dt * (u (iup+1) j - u iup j) / hx
  let divu := (u (iup+1) j - u iup j) / hx + (v iup (j+1) - v iup j) / hy
  stem - vdif - vaddif + (1/2) * dt * stem * divu + (dt/2) * force iup j

/-- Gamma plus for flux G (y-faces). -/
def gampY (s u v : Grid) (slp : ℤ → ℤ → Fin 3 → ℚ) (hx hy dt : ℚ) (i j : ℤ) : ℚ :=
  let jup : ℤ := if 0 < v i j then j - 1 else j
  let jsign : ℚ := if 0 < v i j then 1 else -1
  let vtrans := u (i+1) jup
  let v1 := v i j
  let iup : ℤ := if 0 < vtrans then i else i + 1
  let isign : ℚ := if 0 < vtrans then 1 else -1
  let v2 : ℚ := if 0 < vtrans then v i j
                else (if 0 < v i j * v (i+1) j then v (i+1) j else 0)
  let uu := u (i+1) jup
  let hxs := hx * isign
  let hys := hy * jsign
  s iup jup
    + (hys * (1/2) - (v1 + v2) * dt / 3) * slp iup jup 1
    + (hxs * (1/2) - uu * dt / 3) * slp iup jup 0
    + (3 * hxs * hys - 2 * (v1 + v2) * dt * hxs - 2 * uu * hys * dt
        + (2 * v2 + v1) * uu * dt * dt) * slp iup jup 2 / 12

/-- Gamma minus for flux G (y-faces). -/
def gammY (s u v : Grid) (slp : ℤ → ℤ → Fin 3 → ℚ) (hx hy dt : ℚ) (i j : ℤ) : ℚ :=
  let jup : ℤ := if 0 < v i j then j - 1 else j
  let jsign : ℚ := if 0 < v i j then 1 else -1
  let vtrans := u i jup
  let v1 := v i j
  let iup : ℤ := if 0 < vtrans then i - 1 else i
  let isign : ℚ := if 0 < vtrans then 1 else -1
  let v2 : ℚ := if 0 < vtrans then
                  (if 0 < v i j * v (i-1) j then v (i-1) j else 0)
                else v i j
  let uu := u i jup
  let hxs := hx * isign
  let hys := hy * jsign
  s iup jup
    + (hys * (1/2) - (v1 + v2) * dt / 3) * slp iup jup 1
    + (hxs * (1/2) - uu * dt / 3) * slp iup jup 0
    + (3 * hxs * hys - 2 * (v1 + v2) * dt * hxs - 2 * uu * hys * dt
        + (2 * v2 + v1) * uu * dt * dt) * slp iup jup 2 / 12

/-- The y-edge state `sijph(i,j)` written by `BDS::ComputeConc`. -/
def yedgeOf (s u v force : Grid) (slp : ℤ → ℤ → Fin 3 → ℚ) (hx hy dt : ℚ)
    (i j : ℤ) : ℚ :=
  let jup : ℤ := if 0 < v i j then j - 1 else j
  let jsign : ℚ := if 0 < v i j then 1 else -1
  let gamp := gampY s u v slp hx hy dt i j
  let gamm := gammY s u v slp hx hy dt i j
  let vdif := (1/2) * dt * (u (i+1) jup * gamp - u i jup * gamm) / hx
  let stem := s i jup + (jsign * hy - v i j * dt) * (1/2) * slp i jup 1
  let vaddif := stem * (1/2) * dt * (v i (jup+1) - v i jup) / hy
  let divu := (u (i+1) jup - u i jup) / hx + (v i (jup+1) - v i jup) / hy
  stem - vdif - vaddif + (1/2) * dt * stem * divu + (dt/2) * force i jup

/-- Model of `BDS::ComputeConc` as a pair of edge-state grids, consuming the
slope array produced by `BDS::ComputeSlopes`. -/
def ComputeConc (s u v force : Grid) (hx hy dt : ℚ) :
    (ℤ → ℤ → ℚ) × (ℤ → ℤ → ℚ) :=
  (fun i j => xedgeOf s u v force (slope s hx hy) hx hy dt i j,
   fun i j => yedgeOf s u v force (slope s hx hy) hx hy dt i j)

/-- The diagnostic message of the 2-D configuration check. -/
def conservativeMsg : String :=
  "For 2D, BDS algorithm currently only supports conservative computations"

/-- Model of `BDS::ComputeEdgeState`: aborts when `is_conservative` is zero
(`if(!is_conservative) Abort(...)`), otherwise computes slopes and edge
states. -/
def ComputeEdgeState (s u v force : Grid) (hx hy dt : ℚ) (is_conservative : Int) :
    Except String ((ℤ → ℤ → ℚ) × (ℤ → ℤ → ℚ)) :=
  if is_conservative = 0 then Except.error conservativeMsg
  else Except.ok (ComputeConc s u v force hx hy dt)

/-! ## Definitions transcribed from the specification (for refinement
claims C3, C4, C5 only; everything above is translated from the source). -/

/-- Sum of the four corner values of a cell. -/
def csum (c : Fin 4 → ℚ) : ℚ := c 0 + c 1 + c 2 + c 3

/-- The limiter's envelope property: every corner value lies inside the
min/max envelope of its adjacent-cell-centre quartet. -/
def EnvOK (lo hi c : Fin 4 → ℚ) : Prop := ∀ m, lo m ≤ c m ∧ c m ≤ hi m

/-- A concrete state grid exercising the limiter at cell `(0,0)`:
the inner 3×3 block shapes the envelopes, the four far-corner cells tune
the bicubic corner values `sint`. -/
def c1CexGrid : Grid := fun i j =>
  if i = -1 ∧ j = -1 then 1
  else if i = -1 ∧ j = 1 then 1
  else if i = 1 ∧ j = 1 then 1
  else if i = 1 ∧ j = -1 then -1
  else if i = -2 ∧ j = -2 then 22
  else if i = 2 ∧ j = -2 then 1514/25
  else if i = -2 ∧ j = 2 then -814/25
  else if i = 2 ∧ j = 2 then -122
  else 0

/-- A concrete cubic state grid, `s(i,j) = i³`. -/
def c8CexS : Grid := fun i _ => (i:ℚ)^3

/-- The all-zero grid. -/
def zeroGrid : Grid := fun _ _ => 0

/-- C5's statement of the corner interpolant, following the spec text:
`sint(i,j) = (Σ_corners - 7·Σ_edges + 49·Σ_nears)/144` with the three
explicitly listed neighbourhoods. -/
def sintFromSpec (s : Grid) (i j : ℤ) : ℚ :=
  let corners := s (i-2) (j-2) + s (i-2) (j+1) + s (i+1) (j-2) + s (i+1) (j+1)
  let edges := s (i-2) (j-1) + s (i-2) j + s (i-1) (j-2) + s i (j-2)
                + s (i-1) (j+1) + s i (j+1) + s (i+1) (j-1) + s (i+1) j
  let nears := s (i-1) (j-1) + s i (j-1) + s (i-1) j + s i j
  (corners - 7 * edges + 49 * nears) / 144

/-- C3's statement of the Gamma-plus integral for an x-face, following
the spec text (donor from the strict upwind test, transverse upwind
selection of `jup/jsign/u2`, and the displayed polynomial). -/
def gampXFromSpec (s u v : Grid) (slp : ℤ → ℤ → Fin 3 → ℚ) (hx hy dt : ℚ)
    (i j : ℤ) : ℚ :=
  let iup : ℤ := if 0 < u i j then i - 1 else i
  let isign : ℚ := if 0 < u i j then 1 else -1
  let vtrans := v iup (j+1)
  let jup : ℤ := if 0 < vtrans then j else j + 1
  let jsign : ℚ := if 0 < vtrans then 1 else -1
  let u2 : ℚ := if 0 < vtrans then u i j
                else (if 0 < u i j * u i (j+1) then u i (j+1) else 0)
  let u1 := u i j
  let vv := v iup (j+1)
  let hxs := hx * isign
  let hys := hy * jsign
  s iup jup
    + (hxs / 2 - (u1 + u2) * dt / 3) * slp iup jup 0
    + (hys / 2 - vv * dt / 3) * slp iup jup 1
    + (3 * hxs * hys - 2 * (u1 + u2) * dt * hys - 2 * vv * hxs * dt
        + vv * (2 * u2 + u1) * dt ^ 2) * slp iup jup 2 / 12

/-- C4's statement of the x-edge state, following the spec text:
`edge = stem − vdif − vaddif + ½·dt·stem·divu + ½·dt·force(donor)` with
the listed ingredient formulas. -/
def xedgeFromSpec (s u v force : Grid) (slp : ℤ → ℤ → Fin 3 → ℚ) (hx hy dt : ℚ)
    (i j : ℤ) : ℚ :=
  let iup : ℤ := if 0 < u i j then i - 1 else i
  let isign : ℚ := if 0 < u i j then 1 else -1
  let gamp := gampX s u v slp hx hy dt i j
  let gamm := gammX s u v slp hx hy dt i j
  let stem := s iup j + (isign * hx - u i j * dt) * (1/2) * slp iup j 0
  let vdif := (1/2) * dt * (v iup (j+1) * gamp - v iup j * gamm) / hy
  let vaddif := stem * (1/2) * dt * (u (iup+1) j - u iup j) / hx
  let divu := (u (iup+1) j - u iup j) / hx + (v iup (j+1) - v iup j) / hy
  stem - vdif - vaddif + (1/2) * dt * stem * divu + (1/2) * dt * force iup j

end BDS

namespace BDS

/-! ## First theorems -/

/-- Claim C5. The corner interpolator equals the spec's
`(Σ_corners − 7·Σ_edges + 49·Σ_nears)/144` over the three listed
cell-centre neighbourhoods, at every corner of every grid. -/
theorem claim5_corner_interpolant (s : Grid) (i j : ℤ) :
    sint s i j = sintFromSpec s i j := by
  unfold sint sintFromSpec
  ring

/-! ## Limiter infrastructure -/

lemma sgndifOf_eq_one_or_neg_one (x : ℚ) : sgndifOf x = 1 ∨ sgndifOf x = -1 := by
  unfold sgndifOf; split_ifs <;> simp

lemma sgndifOf_sq (x : ℚ) : sgndifOf x * sgndifOf x = 1 := by
  rcases sgndifOf_eq_one_or_neg_one x with h | h <;> rw [h] <;> norm_num

lemma mul_sgndifOf_nonneg (x : ℚ) : 0 ≤ x * sgndifOf x := by
  unfold sgndifOf
  split_ifs with h
  · nlinarith
  · nlinarith [not_lt.mp h]

lemma sgndifOf_of_pos_mul {x sg : ℚ} (hsg : sg = 1 ∨ sg = -1) (h : 0 < x * sg) :
    sgndifOf x = sg := by
  rcases hsg with h1 | h1 <;> subst h1 <;> unfold sgndifOf
  · rw [if_neg]; nlinarith
  · rw [if_pos]; nlinarith

lemma epsq_pos : (0:ℚ) < epsq := by norm_num [epsq]

lemma csum_update (c : Fin 4 → ℚ) (m : Fin 4) (x : ℚ) :
    csum (Function.update c m x) = csum c - c m + x := by
  fin_cases m <;>
    simp [csum, Function.update_apply] <;> ring

lemma sumdifInit_eq (s0 : ℚ) (c : Fin 4 → ℚ) :
    sumdifInit s0 c = csum c - 4 * s0 := by
  unfold sumdifInit csum; ring

/-- All the facts needed about one per-corner update, packaged. -/
lemma corner_spec (sg : ℚ) (d lo hi : Fin 4 → ℚ) (m : Fin 4)
    (st : ℚ × ℚ × (Fin 4 → ℚ))
    (hsg : sg = 1 ∨ sg = -1)
    (hS : 0 ≤ st.1 * sg) (hEnv : EnvOK lo hi st.2.2) :
    0 ≤ (corner sg d lo hi m st).1 * sg ∧
    (corner sg d lo hi m st).1 * sg ≤ st.1 * sg ∧
    EnvOK lo hi (corner sg d lo hi m st).2.2 ∧
    (∀ m', (corner sg d lo hi m st).2.2 m' * sg ≤ st.2.2 m' * sg) ∧
    (∀ m', m' ≠ m → (corner sg d lo hi m st).2.2 m' = st.2.2 m') ∧
    ((corner sg d lo hi m st).1 - csum (corner sg d lo hi m st).2.2
      = st.1 - csum st.2.2) ∧
    (corner sg d lo hi m st).2.1 = st.2.1 - (if epsq < d m then 1 else 0) := by
  obtain ⟨S, kdp, c⟩ := st
  simp only [corner]
  set div : ℚ := if kdp < 1 then 1 else kdp with hdiv
  set redfac : ℚ := if epsq < d m then S * sg / div else 0 with hredfac
  set redmax : ℚ := if 0 < sg then c m - lo m else hi m - c m with hredmax
  set red : ℚ := min redfac redmax with hred
  have hdiv1 : 1 ≤ div := by
    rw [hdiv]; split_ifs with h
    · exact le_refl 1
    · exact not_lt.mp h
  have hredmax0 : 0 ≤ redmax := by
    rw [hredmax]
    rcases hsg with h1 | h1 <;> subst h1
    · rw [if_pos (by norm_num)]
      have := (hEnv m).1; linarith
    · rw [if_neg (by norm_num)]
      have := (hEnv m).2; linarith
  have hredfacS : redfac ≤ S * sg := by
    rw [hredfac]; split_ifs
    · exact div_le_self hS hdiv1
    · exact hS
  have hredfac0 : 0 ≤ redfac := by
    rw [hredfac]; split_ifs
    · exact div_nonneg hS (by linarith)
    · exact le_refl 0
  have hred0 : 0 ≤ red := le_min hredfac0 hredmax0
  have hredS : red ≤ S * sg := le_trans (min_le_left _ _) hredfacS
  have hredM : red ≤ redmax := min_le_right _ _
  have hsq : sg * sg = 1 := by rcases hsg with h | h <;> subst h <;> norm_num
  refine ⟨?_, ?_, ?_, ?_, ?_, ?_, ?_⟩
  · have : (S - red * sg) * sg = S * sg - red := by
      have : red * sg * sg = red * (sg * sg) := by ring
      nlinarith [hsq]
    rw [this]; linarith
  · have : (S - red * sg) * sg = S * sg - red := by nlinarith [hsq]
    rw [this]; linarith
  · intro m'
    by_cases hm : m' = m
    · subst hm
      rw [Function.update_same]
      rcases hsg with h1 | h1 <;> subst h1
      · rw [hredmax, if_pos (by norm_num)] at hredM
        constructor
        · have := (hEnv m').1; linarith
        · have := (hEnv m').2; linarith
      · rw [hredmax, if_neg (by norm_num)] at hredM
        constructor
        · have := (hEnv m').1; linarith
        · have := (hEnv m').2; linarith
    · rw [Function.update_noteq hm]
      exact hEnv m'
  · intro m'
    by_cases hm : m' = m
    · subst hm
      rw [Function.update_same]
      have : (c m' - red * sg) * sg = c m' * sg - red := by nlinarith [hsq]
      rw [this]; linarith
    · rw [Function.update_noteq hm]
  · intro m' hm
    exact Function.update_noteq hm _ _
  · rw [csum_update]; ring
  · split_ifs <;> ring

/-- The per-corner update leaves the state unchanged on a corner whose
deviation does not exceed `eps` (given the envelope, so that
`min(0, redmax) = 0`). -/
lemma corner_inactive (sg : ℚ) (d lo hi : Fin 4 → ℚ) (m : Fin 4)
    (st : ℚ × ℚ × (Fin 4 → ℚ))
    (hsg : sg = 1 ∨ sg = -1)
    (hEnv : EnvOK lo hi st.2.2) (hm : ¬ epsq < d m) :
    corner sg d lo hi m st = st := by
  obtain ⟨S, kdp, c⟩ := st
  simp only [corner, if_neg hm]
  have hredmax0 : 0 ≤ (if 0 < sg then c m - lo m else hi m - c m) := by
    rcases hsg with h1 | h1 <;> subst h1
    · rw [if_pos (by norm_num)]
      have := (hEnv m).1; linarith
    · rw [if_neg (by norm_num)]
      have := (hEnv m).2; linarith
  rw [min_eq_left hredmax0]
  simp [Function.update_eq_self]

/-- At a corner processed with `kdp = 1` and an active deviation, either
the whole residual is absorbed (`sumdif` becomes zero) or the corner is
clamped exactly to its envelope bound. -/
lemma corner_div_one (sg : ℚ) (d lo hi : Fin 4 → ℚ) (m : Fin 4)
    (st : ℚ × ℚ × (Fin 4 → ℚ))
    (hsg : sg = 1 ∨ sg = -1) (hact : epsq < d m) (hkdp : st.2.1 = 1) :
    (corner sg d lo hi m st).1 = 0 ∨
    ((corner sg d lo hi m st).2.2 m = (if 0 < sg then lo m else hi m) ∧
     (corner sg d lo hi m st).1 * sg
       = st.1 * sg - (if 0 < sg then st.2.2 m - lo m else hi m - st.2.2 m)) := by
  obtain ⟨S, kdp, c⟩ := st
  simp only at hkdp
  subst hkdp
  simp only [corner, if_pos hact]
  have hdiv : (if (1:ℚ) < 1 then (1:ℚ) else 1) = 1 := by norm_num
  rw [hdiv, div_one]
  rcases hsg with h1 | h1 <;> subst h1
  · simp only [if_pos (show (0:ℚ) < 1 by norm_num)]
    rcases min_cases (S * 1) (c m - lo m) with ⟨hmin, _⟩ | ⟨hmin, _⟩ <;> rw [hmin]
    · left; ring
    · right
      refine ⟨?_, by ring⟩
      rw [Function.update_same]; ring
  · simp only [if_neg (show ¬ (0:ℚ) < -1 by norm_num)]
    rcases min_cases (S * -1) (hi m - c m) with ⟨hmin, _⟩ | ⟨hmin, _⟩ <;> rw [hmin]
    · left; ring
    · right
      refine ⟨?_, by ring⟩
      rw [Function.update_same]; ring

/-- Fold `|x|` through a `±1` sign factor. -/
lemma abs_le_of_sg {sg x b : ℚ} (hsg : sg = 1 ∨ sg = -1)
    (h0 : 0 ≤ x * sg) (h1 : x * sg ≤ b) : |x| ≤ b := by
  rcases hsg with h | h <;> subst h <;> rw [abs_le] <;> constructor <;> linarith

/-- The four sign-adjusted deviations sum to the sign-adjusted residual. -/
lemma d_sum (s0 sg : ℚ) (c d : Fin 4 → ℚ) (hd : ∀ m, d m = (c m - s0) * sg) :
    d 0 + d 1 + d 2 + d 3 = (csum c - 4 * s0) * sg := by
  rw [hd 0, hd 1, hd 2, hd 3, csum]; ring

/-- The clamp bound `redmax` dominates the sign-adjusted deviation whenever the cell
centre lies inside the corner's envelope. -/
lemma dp_le_redmax (s0 sg : ℚ) (lo hi c d : Fin 4 → ℚ) (p : Fin 4)
    (hsg : sg = 1 ∨ sg = -1) (hd : ∀ m, d m = (c m - s0) * sg)
    (hlo : ∀ m, lo m ≤ s0) (hhi : ∀ m, s0 ≤ hi m) :
    d p ≤ (if 0 < sg then c p - lo p else hi p - c p) := by
  rcases hsg with h | h <;> subst h
  · rw [if_pos (by norm_num : (0:ℚ) < 1), hd p]
    have := hlo p; linarith
  · rw [if_neg (by norm_num : ¬ (0:ℚ) < -1), hd p]
    have := hhi p; linarith

/-- A clamped envelope bound is on the far side of the cell centre. -/
lemma bound_side (s0 sg : ℚ) (lo hi : Fin 4 → ℚ) (p : Fin 4)
    (hsg : sg = 1 ∨ sg = -1)
    (hlo : ∀ m, lo m ≤ s0) (hhi : ∀ m, s0 ≤ hi m) :
    ((if 0 < sg then lo p else hi p) - s0) * sg ≤ 0 := by
  rcases hsg with h | h <;> subst h
  · rw [if_pos (by norm_num : (0:ℚ) < 1)]
    have := hlo p; nlinarith
  · rw [if_neg (by norm_num : ¬ (0:ℚ) < -1)]
    have := hhi p; nlinarith

/-- Quantitative form of `corner_div_one`: the sign-adjusted residual
after the single active corner is at most `3·eps`. -/
lemma corner_div_one_S_le (sg : ℚ) (d lo hi : Fin 4 → ℚ) (p : Fin 4)
    (st : ℚ × ℚ × (Fin 4 → ℚ))
    (hsg : sg = 1 ∨ sg = -1) (hq : epsq < d p) (hkdp : st.2.1 = 1)
    (hrm : d p ≤ (if 0 < sg then st.2.2 p - lo p else hi p - st.2.2 p))
    (hS : st.1 * sg ≤ d p + 3 * epsq) :
    (corner sg d lo hi p st).1 * sg ≤ 3 * epsq := by
  obtain hA | ⟨_, hBS⟩ := corner_div_one sg d lo hi p st hsg hq hkdp
  · rw [hA, zero_mul]; norm_num [epsq]
  · rw [hBS]; linarith

/-- The common closing step: a state whose residual bookkeeping matches
the corner sum and whose sign-adjusted residual is at most `3·eps`. -/
lemma finish_bound (s0 sg : ℚ) (st1 : ℚ × ℚ × (Fin 4 → ℚ))
    (hsg : sg = 1 ∨ sg = -1)
    (h0 : 0 ≤ st1.1 * sg)
    (hb : st1.1 - csum st1.2.2 = -(4 * s0))
    (hle : st1.1 * sg ≤ 3 * epsq) :
    |csum st1.2.2 - 4 * s0| ≤ 4 * epsq := by
  have he : csum st1.2.2 - 4 * s0 = st1.1 := by linarith
  rw [he]
  exact abs_le_of_sg hsg h0 (le_trans hle (by norm_num [epsq]))

/-- If at most one corner is active at sweep entry, the sweep leaves the
residual no larger than `4·eps` in magnitude.  (With `kdp = 1` the single
active corner either absorbs the whole residual or is clamped to an
envelope bound that dominates its own deviation.) -/
lemma chain4_le_one_active (s0 sg S0 k0 : ℚ) (d lo hi c : Fin 4 → ℚ)
    (hsg : sg = 1 ∨ sg = -1)
    (hd : ∀ m, d m = (c m - s0) * sg)
    (hS0 : S0 = csum c - 4 * s0) (hS0n : 0 ≤ S0 * sg)
    (hk0 : k0 = kdpInit d)
    (hEnv : EnvOK lo hi c)
    (hlo : ∀ m, lo m ≤ s0) (hhi : ∀ m, s0 ≤ hi m)
    (p : Fin 4) (hp : ∀ m, m ≠ p → ¬ epsq < d m) :
    |csum (chain4 sg d lo hi (S0, k0, c)).2.2 - 4 * s0| ≤ 4 * epsq := by
  have hsum := d_sum s0 sg c d hd
  by_cases hq : epsq < d p
  case neg =>
    have hall : ∀ m, ¬ epsq < d m := by
      intro m
      by_cases hm : m = p
      · subst hm; exact hq
      · exact hp m hm
    have e0 : corner sg d lo hi 0 (S0, k0, c) = (S0, k0, c) :=
      corner_inactive _ _ _ _ _ _ hsg hEnv (hall 0)
    have e1 : corner sg d lo hi 1 (S0, k0, c) = (S0, k0, c) :=
      corner_inactive _ _ _ _ _ _ hsg hEnv (hall 1)
    have e2 : corner sg d lo hi 2 (S0, k0, c) = (S0, k0, c) :=
      corner_inactive _ _ _ _ _ _ hsg hEnv (hall 2)
    have e3 : corner sg d lo hi 3 (S0, k0, c) = (S0, k0, c) :=
      corner_inactive _ _ _ _ _ _ hsg hEnv (hall 3)
    have hch : (chain4 sg d lo hi (S0, k0, c)).2.2 = c := by
      simp only [chain4]; rw [e0, e1, e2, e3]
    rw [hch]
    apply abs_le_of_sg hsg
    · rw [← hS0]; exact hS0n
    · have b0 := not_lt.mp (hall 0)
      have b1 := not_lt.mp (hall 1)
      have b2 := not_lt.mp (hall 2)
      have b3 := not_lt.mp (hall 3)
      linarith
  case pos =>
    have hrm := dp_le_redmax s0 sg lo hi c d p hsg hd hlo hhi
    fin_cases p
    · -- active corner is corner 0
      have hq' : epsq < d 0 := hq
      have hrm' : d 0 ≤ (if 0 < sg then c 0 - lo 0 else hi 0 - c 0) := hrm
      have h1 := hp 1 (by decide)
      have h2 := hp 2 (by decide)
      have h3 := hp 3 (by decide)
      have hk : k0 = 1 := by
        rw [hk0]
        simp only [kdpInit, if_pos hq', if_neg h1, if_neg h2, if_neg h3]
        norm_num
      subst hk
      simp only [chain4]
      obtain ⟨sa, _, sc', _, _, sf, _⟩ :=
        corner_spec sg d lo hi 0 (S0, 1, c) hsg hS0n hEnv
      have hSle : (corner sg d lo hi 0 (S0, 1, c)).1 * sg ≤ 3 * epsq := by
        refine corner_div_one_S_le sg d lo hi 0 (S0, 1, c) hsg hq' rfl hrm' ?_
        have b1 := not_lt.mp h1
        have b2 := not_lt.mp h2
        have b3 := not_lt.mp h3
        have : S0 * sg = d 0 + d 1 + d 2 + d 3 := by rw [hS0, ← hsum]
        linarith
      set st1 := corner sg d lo hi 0 (S0, 1, c) with hst1
      have e1 : corner sg d lo hi 1 st1 = st1 :=
        corner_inactive _ _ _ _ _ _ hsg sc' h1
      have e2 : corner sg d lo hi 2 st1 = st1 :=
        corner_inactive _ _ _ _ _ _ hsg sc' h2
      have e3 : corner sg d lo hi 3 st1 = st1 :=
        corner_inactive _ _ _ _ _ _ hsg sc' h3
      rw [e1, e2, e3]
      refine finish_bound s0 sg st1 hsg sa ?_ hSle
      dsimp only at sf
      rw [hS0] at sf
      linarith
    · -- active corner is corner 1
      have hq' : epsq < d 1 := hq
      have hrm' : d 1 ≤ (if 0 < sg then c 1 - lo 1 else hi 1 - c 1) := hrm
      have h0 := hp 0 (by decide)
      have h2 := hp 2 (by decide)
      have h3 := hp 3 (by decide)
      have hk : k0 = 1 := by
        rw [hk0]
        simp only [kdpInit, if_pos hq', if_neg h0, if_neg h2, if_neg h3]
        norm_num
      subst hk
      simp only [chain4]
      have e0 : corner sg d lo hi 0 (S0, 1, c) = (S0, 1, c) :=
        corner_inactive _ _ _ _ _ _ hsg hEnv h0
      rw [e0]
      obtain ⟨sa, _, sc', _, _, sf, _⟩ :=
        corner_spec sg d lo hi 1 (S0, 1, c) hsg hS0n hEnv
      have hSle : (corner sg d lo hi 1 (S0, 1, c)).1 * sg ≤ 3 * epsq := by
        refine corner_div_one_S_le sg d lo hi 1 (S0, 1, c) hsg hq' rfl hrm' ?_
        have b0 := not_lt.mp h0
        have b2 := not_lt.mp h2
        have b3 := not_lt.mp h3
        have : S0 * sg = d 0 + d 1 + d 2 + d 3 := by rw [hS0, ← hsum]
        linarith
      set st1 := corner sg d lo hi 1 (S0, 1, c) with hst1
      have e2 : corner sg d lo hi 2 st1 = st1 :=
        corner_inactive _ _ _ _ _ _ hsg sc' h2
      have e3 : corner sg d lo hi 3 st1 = st1 :=
        corner_inactive _ _ _ _ _ _ hsg sc' h3
      rw [e2, e3]
      refine finish_bound s0 sg st1 hsg sa ?_ hSle
      dsimp only at sf
      rw [hS0] at sf
      linarith
    · -- active corner is corner 2
      have hq' : epsq < d 2 := hq
      have hrm' : d 2 ≤ (if 0 < sg then c 2 - lo 2 else hi 2 - c 2) := hrm
      have h0 := hp 0 (by decide)
      have h1 := hp 1 (by decide)
      have h3 := hp 3 (by decide)
      have hk : k0 = 1 := by
        rw [hk0]
        simp only [kdpInit, if_pos hq', if_neg h0, if_neg h1, if_neg h3]
        norm_num
      subst hk
      simp only [chain4]
      have e0 : corner sg d lo hi 0 (S0, 1, c) = (S0, 1, c) :=
        corner_inactive _ _ _ _ _ _ hsg hEnv h0
      have e1 : corner sg d lo hi 1 (S0, 1, c) = (S0, 1, c) :=
        corner_inactive _ _ _ _ _ _ hsg hEnv h1
      rw [e0, e1]
      obtain ⟨sa, _, sc', _, _, sf, _⟩ :=
        corner_spec sg d lo hi 2 (S0, 1, c) hsg hS0n hEnv
      have hSle : (corner sg d lo hi 2 (S0, 1, c)).1 * sg ≤ 3 * epsq := by
        refine corner_div_one_S_le sg d lo hi 2 (S0, 1, c) hsg hq' rfl hrm' ?_
        have b0 := not_lt.mp h0
        have b1 := not_lt.mp h1
        have b3 := not_lt.mp h3
        have : S0 * sg = d 0 + d 1 + d 2 + d 3 := by rw [hS0, ← hsum]
        linarith
      set st1 := corner sg d lo hi 2 (S0, 1, c) with hst1
      have e3 : corner sg d lo hi 3 st1 = st1 :=
        corner_inactive _ _ _ _ _ _ hsg sc' h3
      rw [e3]
      refine finish_bound s0 sg st1 hsg sa ?_ hSle
      dsimp only at sf
      rw [hS0] at sf
      linarith
    · -- active corner is corner 3
      have hq' : epsq < d 3 := hq
      have hrm' : d 3 ≤ (if 0 < sg then c 3 - lo 3 else hi 3 - c 3) := hrm
      have h0 := hp 0 (by decide)
      have h1 := hp 1 (by decide)
      have h2 := hp 2 (by decide)
      have hk : k0 = 1 := by
        rw [hk0]
        simp only [kdpInit, if_pos hq', if_neg h0, if_neg h1, if_neg h2]
        norm_num
      subst hk
      simp only [chain4]
      have e0 : corner sg d lo hi 0 (S0, 1, c) = (S0, 1, c) :=
        corner_inactive _ _ _ _ _ _ hsg hEnv h0
      have e1 : corner sg d lo hi 1 (S0, 1, c) = (S0, 1, c) :=
        corner_inactive _ _ _ _ _ _ hsg hEnv h1
      have e2 : corner sg d lo hi 2 (S0, 1, c) = (S0, 1, c) :=
        corner_inactive _ _ _ _ _ _ hsg hEnv h2
      rw [e0, e1, e2]
      obtain ⟨sa, _, _, _, _, sf, _⟩ :=
        corner_spec sg d lo hi 3 (S0, 1, c) hsg hS0n hEnv
      have hSle : (corner sg d lo hi 3 (S0, 1, c)).1 * sg ≤ 3 * epsq := by
        refine corner_div_one_S_le sg d lo hi 3 (S0, 1, c) hsg hq' rfl hrm' ?_
        have b0 := not_lt.mp h0
        have b1 := not_lt.mp h1
        have b2 := not_lt.mp h2
        have : S0 * sg = d 0 + d 1 + d 2 + d 3 := by rw [hS0, ← hsum]
        linarith
      refine finish_bound s0 sg _ hsg sa ?_ hSle
      dsimp only at sf
      linarith [hS0]

/-- If some corner is active at sweep entry and the sweep still ends with
a strictly positive sign-adjusted residual, then some active corner was
clamped during the sweep and ends on the far side of the cell centre
(so it is inactive from the next sweep on). -/
lemma chain4_blame (s0 sg S0 k0 : ℚ) (d lo hi c : Fin 4 → ℚ)
    (hsg : sg = 1 ∨ sg = -1)
    (hS0 : S0 = csum c - 4 * s0) (hS0n : 0 ≤ S0 * sg)
    (hk0 : k0 = kdpInit d)
    (hEnv : EnvOK lo hi c)
    (hlo : ∀ m, lo m ≤ s0) (hhi : ∀ m, s0 ≤ hi m)
    (hex : ∃ m, epsq < d m)
    (hpos : 0 < (csum (chain4 sg d lo hi (S0, k0, c)).2.2 - 4 * s0) * sg) :
    ∃ m, epsq < d m ∧ ((chain4 sg d lo hi (S0, k0, c)).2.2 m - s0) * sg ≤ 0 := by
  simp only [chain4] at hpos ⊢
  obtain ⟨s0a, _, s0c, _, _, s0f, s0g⟩ :=
    corner_spec sg d lo hi 0 (S0, k0, c) hsg hS0n hEnv
  set st1 := corner sg d lo hi 0 (S0, k0, c) with hst1
  obtain ⟨s1a, _, s1c, _, _, s1f, s1g⟩ := corner_spec sg d lo hi 1 st1 hsg s0a s0c
  set st2 := corner sg d lo hi 1 st1 with hst2
  obtain ⟨s2a, _, s2c, _, _, s2f, s2g⟩ := corner_spec sg d lo hi 2 st2 hsg s1a s1c
  set st3 := corner sg d lo hi 2 st2 with hst3
  obtain ⟨s3a, _, s3c, _, _, s3f, s3g⟩ := corner_spec sg d lo hi 3 st3 hsg s2a s2c
  dsimp only at s0f s0g
  by_cases a3 : epsq < d 3
  · -- the last active corner is corner 3
    have hk3 : st3.2.1 = 1 := by
      rw [s2g, s1g, s0g, hk0]
      simp only [kdpInit, if_pos a3]
      ring
    obtain hA | ⟨hBc, hBS⟩ := corner_div_one sg d lo hi 3 st3 hsg a3 hk3
    · exfalso
      have hz : csum (corner sg d lo hi 3 st3).2.2 - 4 * s0 = 0 := by
        have := s3f
        rw [hA] at this
        linarith [s2f, s1f, s0f, hS0]
      rw [hz, zero_mul] at hpos
      exact lt_irrefl 0 hpos
    · exact ⟨3, a3, by rw [hBc]; exact bound_side s0 sg lo hi 3 hsg hlo hhi⟩
  · by_cases a2 : epsq < d 2
    · -- the last active corner is corner 2
      have hk2 : st2.2.1 = 1 := by
        rw [s1g, s0g, hk0]
        simp only [kdpInit, if_pos a2, if_neg a3]
        ring
      have e3 : corner sg d lo hi 3 st3 = st3 :=
        corner_inactive _ _ _ _ _ _ hsg s2c a3
      rw [e3] at hpos ⊢
      obtain hA | ⟨hBc, hBS⟩ := corner_div_one sg d lo hi 2 st2 hsg a2 hk2
      · exfalso
        have hz : csum st3.2.2 - 4 * s0 = 0 := by
          have := s2f
          rw [hst3, hA] at this
          rw [hst3]
          linarith [s1f, s0f, hS0]
        rw [hz, zero_mul] at hpos
        exact lt_irrefl 0 hpos
      · refine ⟨2, a2, ?_⟩
        rw [hst3, hBc]
        exact bound_side s0 sg lo hi 2 hsg hlo hhi
    · by_cases a1 : epsq < d 1
      · -- the last active corner is corner 1
        have hk1 : st1.2.1 = 1 := by
          rw [s0g, hk0]
          simp only [kdpInit, if_pos a1, if_neg a2, if_neg a3]
          ring
        have e2 : corner sg d lo hi 2 st2 = st2 :=
          corner_inactive _ _ _ _ _ _ hsg s1c a2
        have e3' : corner sg d lo hi 3 st3 = st3 :=
          corner_inactive _ _ _ _ _ _ hsg s2c a3
        rw [e3', hst3, e2] at hpos ⊢
        obtain hA | ⟨hBc, hBS⟩ := corner_div_one sg d lo hi 1 st1 hsg a1 hk1
        · exfalso
          have hz : csum st2.2.2 - 4 * s0 = 0 := by
            have := s1f
            rw [hst2, hA] at this
            rw [hst2]
            linarith [s0f, hS0]
          rw [hz, zero_mul] at hpos
          exact lt_irrefl 0 hpos
        · refine ⟨1, a1, ?_⟩
          rw [hst2, hBc]
          exact bound_side s0 sg lo hi 1 hsg hlo hhi
      · -- the last active corner is corner 0
        have a0 : epsq < d 0 := by
          obtain ⟨m, hm⟩ := hex
          fin_cases m
          · exact hm
          · exact absurd hm a1
          · exact absurd hm a2
          · exact absurd hm a3
        have hkz : k0 = 1 := by
          rw [hk0]
          simp only [kdpInit, if_pos a0, if_neg a1, if_neg a2, if_neg a3]
          norm_num
        have e1 : corner sg d lo hi 1 st1 = st1 :=
          corner_inactive _ _ _ _ _ _ hsg s0c a1
        have e2' : corner sg d lo hi 2 st2 = st2 :=
          corner_inactive _ _ _ _ _ _ hsg s1c a2
        have e3'' : corner sg d lo hi 3 st3 = st3 :=
          corner_inactive _ _ _ _ _ _ hsg s2c a3
        rw [e3'', hst3, e2', hst2, e1] at hpos ⊢
        obtain hA | ⟨hBc, hBS⟩ := corner_div_one sg d lo hi 0 (S0, k0, c) hsg a0
          (by dsimp only; exact hkz)
        · exfalso
          have hz : csum st1.2.2 - 4 * s0 = 0 := by
            have := s0f
            rw [hst1, hA] at this
            rw [hst1]
            linarith [hS0]
          rw [hz, zero_mul] at hpos
          exact lt_irrefl 0 hpos
        · refine ⟨0, a0, ?_⟩
          rw [hst1, hBc]
          exact bound_side s0 sg lo hi 0 hsg hlo hhi

/-- Lemma `corner_spec` chained over the four corners of a sweep. -/
lemma chain4_spec (sg : ℚ) (d lo hi : Fin 4 → ℚ) (st : ℚ × ℚ × (Fin 4 → ℚ))
    (hsg : sg = 1 ∨ sg = -1)
    (hS : 0 ≤ st.1 * sg) (hEnv : EnvOK lo hi st.2.2) :
    0 ≤ (chain4 sg d lo hi st).1 * sg ∧
    (chain4 sg d lo hi st).1 * sg ≤ st.1 * sg ∧
    EnvOK lo hi (chain4 sg d lo hi st).2.2 ∧
    (∀ m', (chain4 sg d lo hi st).2.2 m' * sg ≤ st.2.2 m' * sg) ∧
    ((chain4 sg d lo hi st).1 - csum (chain4 sg d lo hi st).2.2
      = st.1 - csum st.2.2) := by
  obtain ⟨h0a, h0b, h0c, h0d, _, h0f, _⟩ := corner_spec sg d lo hi 0 st hsg hS hEnv
  obtain ⟨h1a, h1b, h1c, h1d, _, h1f, _⟩ :=
    corner_spec sg d lo hi 1 (corner sg d lo hi 0 st) hsg h0a h0c
  obtain ⟨h2a, h2b, h2c, h2d, _, h2f, _⟩ :=
    corner_spec sg d lo hi 2 (corner sg d lo hi 1 (corner sg d lo hi 0 st)) hsg h1a h1c
  obtain ⟨h3a, h3b, h3c, h3d, _, h3f, _⟩ :=
    corner_spec sg d lo hi 3
      (corner sg d lo hi 2 (corner sg d lo hi 1 (corner sg d lo hi 0 st))) hsg h2a h2c
  refine ⟨h3a, ?_, h3c, ?_, ?_⟩
  · calc (chain4 sg d lo hi st).1 * sg
        ≤ _ := h3b
      _ ≤ _ := h2b
      _ ≤ _ := h1b
      _ ≤ st.1 * sg := h0b
  · intro m'
    calc (chain4 sg d lo hi st).2.2 m' * sg
        ≤ _ := h3d m'
      _ ≤ _ := h2d m'
      _ ≤ _ := h1d m'
      _ ≤ st.2.2 m' * sg := h0d m'
  · rw [chain4] at *
    rw [h3f, h2f, h1f, h0f]

/-- The facts carried from one sweep to the next: the residual keeps its
sign, its magnitude does not increase, the envelope is preserved, and
every corner moves weakly toward the cell centre (in the sign-adjusted
order). -/
lemma sweep_spec (s0 : ℚ) (lo hi c : Fin 4 → ℚ) (hEnv : EnvOK lo hi c) :
    0 ≤ (csum (sweep s0 lo hi c) - 4 * s0) * sgndifOf (csum c - 4 * s0) ∧
    (csum (sweep s0 lo hi c) - 4 * s0) * sgndifOf (csum c - 4 * s0)
      ≤ (csum c - 4 * s0) * sgndifOf (csum c - 4 * s0) ∧
    EnvOK lo hi (sweep s0 lo hi c) ∧
    (∀ m, sweep s0 lo hi c m * sgndifOf (csum c - 4 * s0)
           ≤ c m * sgndifOf (csum c - 4 * s0)) := by
  have hch : sweep s0 lo hi c
      = (chain4 (sgndifOf (csum c - 4 * s0))
          (fun m => (c m - s0) * sgndifOf (csum c - 4 * s0)) lo hi
          (csum c - 4 * s0,
           kdpInit (fun m => (c m - s0) * sgndifOf (csum c - 4 * s0)), c)).2.2 := by
    simp only [sweep, sumdifInit_eq]
  have hsg := sgndifOf_eq_one_or_neg_one (csum c - 4 * s0)
  have hS : 0 ≤ (csum c - 4 * s0) * sgndifOf (csum c - 4 * s0) :=
    mul_sgndifOf_nonneg _
  obtain ⟨ha, hb, hc', hd, hf⟩ := chain4_spec (sgndifOf (csum c - 4 * s0))
    (fun m => (c m - s0) * sgndifOf (csum c - 4 * s0)) lo hi
    (csum c - 4 * s0,
     kdpInit (fun m => (c m - s0) * sgndifOf (csum c - 4 * s0)), c) hsg hS hEnv
  dsimp only at ha hb hc' hd hf
  have hSfin : (chain4 (sgndifOf (csum c - 4 * s0))
      (fun m => (c m - s0) * sgndifOf (csum c - 4 * s0)) lo hi
      (csum c - 4 * s0,
       kdpInit (fun m => (c m - s0) * sgndifOf (csum c - 4 * s0)), c)).1
      = csum (sweep s0 lo hi c) - 4 * s0 := by
    rw [hch]; linarith [hf]
  refine ⟨?_, ?_, ?_, ?_⟩
  · rw [← hSfin]; exact ha
  · rw [← hSfin]; exact hb
  · rw [hch]; exact hc'
  · intro m; rw [hch]; exact hd m

/-- With a `±1` sign and a nonnegative sign-adjusted value, the absolute
value is the sign-adjusted value. -/
lemma abs_eq_mul_sg {sg x : ℚ} (hsg : sg = 1 ∨ sg = -1) (h0 : 0 ≤ x * sg) :
    |x| = x * sg := by
  rcases hsg with h | h <;> subst h
  · rw [mul_one] at *; exact abs_of_nonneg h0
  · have : x ≤ 0 := by linarith
    rw [abs_of_nonpos this]; ring

/-- One sweep never increases the magnitude of the residual. -/
lemma sweep_abs_mono (s0 : ℚ) (lo hi c : Fin 4 → ℚ) (hEnv : EnvOK lo hi c) :
    |csum (sweep s0 lo hi c) - 4 * s0| ≤ |csum c - 4 * s0| := by
  obtain ⟨ha, hb, _, _⟩ := sweep_spec s0 lo hi c hEnv
  have hsg := sgndifOf_eq_one_or_neg_one (csum c - 4 * s0)
  calc |csum (sweep s0 lo hi c) - 4 * s0|
      = (csum (sweep s0 lo hi c) - 4 * s0) * sgndifOf (csum c - 4 * s0) :=
        abs_eq_mul_sg hsg ha
    _ ≤ (csum c - 4 * s0) * sgndifOf (csum c - 4 * s0) := hb
    _ = |csum c - 4 * s0| := (abs_eq_mul_sg hsg (mul_sgndifOf_nonneg _)).symm

/-- Wrapper of `chain4_le_one_active` at the `sweep` level. -/
lemma sweep_le_one_active (s0 : ℚ) (lo hi c : Fin 4 → ℚ)
    (hEnv : EnvOK lo hi c) (hlo : ∀ m, lo m ≤ s0) (hhi : ∀ m, s0 ≤ hi m)
    (p : Fin 4)
    (hp : ∀ m, m ≠ p → ¬ epsq < (c m - s0) * sgndifOf (csum c - 4 * s0)) :
    |csum (sweep s0 lo hi c) - 4 * s0| ≤ 4 * epsq := by
  have hch : sweep s0 lo hi c
      = (chain4 (sgndifOf (csum c - 4 * s0))
          (fun m => (c m - s0) * sgndifOf (csum c - 4 * s0)) lo hi
          (csum c - 4 * s0,
           kdpInit (fun m => (c m - s0) * sgndifOf (csum c - 4 * s0)), c)).2.2 := by
    simp only [sweep, sumdifInit_eq]
  rw [hch]
  exact chain4_le_one_active s0 _ _ _ _ lo hi c
    (sgndifOf_eq_one_or_neg_one _) (fun m => rfl) rfl (mul_sgndifOf_nonneg _) rfl
    hEnv hlo hhi p hp

/-- Wrapper of `chain4_blame` at the `sweep` level. -/
lemma sweep_blame (s0 : ℚ) (lo hi c : Fin 4 → ℚ)
    (hEnv : EnvOK lo hi c) (hlo : ∀ m, lo m ≤ s0) (hhi : ∀ m, s0 ≤ hi m)
    (hex : ∃ m, epsq < (c m - s0) * sgndifOf (csum c - 4 * s0))
    (hpos : 0 < (csum (sweep s0 lo hi c) - 4 * s0) * sgndifOf (csum c - 4 * s0)) :
    ∃ m, epsq < (c m - s0) * sgndifOf (csum c - 4 * s0) ∧
      (sweep s0 lo hi c m - s0) * sgndifOf (csum c - 4 * s0) ≤ 0 := by
  have hch : sweep s0 lo hi c
      = (chain4 (sgndifOf (csum c - 4 * s0))
          (fun m => (c m - s0) * sgndifOf (csum c - 4 * s0)) lo hi
          (csum c - 4 * s0,
           kdpInit (fun m => (c m - s0) * sgndifOf (csum c - 4 * s0)), c)).2.2 := by
    simp only [sweep, sumdifInit_eq]
  rw [hch] at hpos ⊢
  exact chain4_blame s0 _ _ _ _ lo hi c
    (sgndifOf_eq_one_or_neg_one _) rfl (mul_sgndifOf_nonneg _) rfl
    hEnv hlo hhi hex hpos

/-! ## Grid-level limiter facts -/

lemma sminF_le (s : Grid) (i j : ℤ) (m : Fin 4) : sminF s i j m ≤ s i j := by
  fin_cases m <;> exact le_trans (min_le_left _ _) (min_le_left _ _)

lemma le_smaxF (s : Grid) (i j : ℤ) (m : Fin 4) : s i j ≤ smaxF s i j m := by
  fin_cases m <;> exact le_trans (le_max_left _ _) (le_max_left _ _)

lemma sminF_le_smaxF (s : Grid) (i j : ℤ) (m : Fin 4) :
    sminF s i j m ≤ smaxF s i j m :=
  le_trans (sminF_le s i j m) (le_smaxF s i j m)

/-- The initial clamp lands inside the envelope. -/
lemma EnvOK_scClamp (s : Grid) (hx hy : ℚ) (i j : ℤ) :
    EnvOK (sminF s i j) (smaxF s i j) (scClamp s hx hy i j) := by
  intro m
  constructor
  · exact le_max_right _ _
  · exact max_le (min_le_right _ _) (sminF_le_smaxF s i j m)

/-- The unlimited reconstructed corners average exactly to the cell
centre: their sum is `4·s(i,j)`. -/
lemma csum_scInit (s : Grid) (hx hy : ℚ) (i j : ℤ) :
    csum (scInit s hx hy i j) = 4 * s i j := by
  simp only [csum, scInit]
  ring

/-- If the clamp creates a residual, some corner was clamped against the
residual's direction, and that corner is on the far side of the cell
centre (hence inactive in every sweep). -/
lemma clamp_blame (s : Grid) (hx hy : ℚ) (i j : ℤ) (sg : ℚ)
    (hsg : sg = 1 ∨ sg = -1)
    (hpos : 0 < (csum (scClamp s hx hy i j) - 4 * s i j) * sg) :
    ∃ m, (scClamp s hx hy i j m - s i j) * sg ≤ 0 := by
  by_contra hno
  push_neg at hno
  have hsum := csum_scInit s hx hy i j
  rcases hsg with h | h <;> subst h
  · have hle : ∀ m, scClamp s hx hy i j m ≤ scInit s hx hy i j m := by
      intro m
      by_cases hcase : sminF s i j m ≤ min (scInit s hx hy i j m) (smaxF s i j m)
      · have hcl : scClamp s hx hy i j m
            = min (scInit s hx hy i j m) (smaxF s i j m) := max_eq_left hcase
        rw [hcl]; exact min_le_left _ _
      · push_neg at hcase
        have hcl : scClamp s hx hy i j m = sminF s i j m :=
          max_eq_right (le_of_lt hcase)
        exfalso
        have hm := hno m
        rw [hcl] at hm
        have hs := sminF_le s i j m
        nlinarith
    have hcs : csum (scClamp s hx hy i j) ≤ csum (scInit s hx hy i j) := by
      simp only [csum]; linarith [hle 0, hle 1, hle 2, hle 3]
    nlinarith
  · have hge : ∀ m, scInit s hx hy i j m ≤ scClamp s hx hy i j m := by
      intro m
      by_cases hcase : scInit s hx hy i j m ≤ smaxF s i j m
      · have h1 : min (scInit s hx hy i j m) (smaxF s i j m)
            = scInit s hx hy i j m := min_eq_left hcase
        have h2 : scInit s hx hy i j m
            ≤ max (min (scInit s hx hy i j m) (smaxF s i j m)) (sminF s i j m) := by
          rw [h1]; exact le_max_left _ _
        exact h2
      · push_neg at hcase
        have h1 : min (scInit s hx hy i j m) (smaxF s i j m) = smaxF s i j m :=
          min_eq_right (le_of_lt hcase)
        have hcl : scClamp s hx hy i j m = smaxF s i j m := by
          have h2 : max (min (scInit s hx hy i j m) (smaxF s i j m)) (sminF s i j m)
              = smaxF s i j m := by
            rw [h1]; exact max_eq_left (sminF_le_smaxF s i j m)
          exact h2
        exfalso
        have hm := hno m
        rw [hcl] at hm
        have hs := le_smaxF s i j m
        nlinarith
    have hcs : csum (scInit s hx hy i j) ≤ csum (scClamp s hx hy i j) := by
      simp only [csum]; linarith [hge 0, hge 1, hge 2, hge 3]
    nlinarith

lemma scAfter_succ (s : Grid) (hx hy : ℚ) (i j : ℤ) (n : ℕ) :
    scAfter s hx hy i j (n+1)
      = sweep (s i j) (sminF s i j) (smaxF s i j) (scAfter s hx hy i j n) := by
  rw [scAfter, scAfter, Function.iterate_succ_apply']
  rfl

/-- Transport of "the corner is on the far side of the cell centre"
along the sign-adjusted pointwise monotonicity of a sweep. -/
lemma dev_mono {a b s0 sg : ℚ} (h : a * sg ≤ b * sg) (hb : (b - s0) * sg ≤ 0) :
    (a - s0) * sg ≤ 0 := by
  have e1 : (a - s0) * sg = a * sg - s0 * sg := by ring
  have e2 : (b - s0) * sg = b * sg - s0 * sg := by ring
  rw [e1]; rw [e2] at hb; linarith

/-- Main limiter bound.  After the initial clamp and all three
redistribution sweeps, the residual `Σ sc − 4·s(i,j)` is at most `4·eps`
in magnitude.  (The clamp parks at least one corner on the far side of
the residual, each failed sweep clamps its last active corner there too,
so the third sweep starts with at most one active corner and either
absorbs the residual or reduces it below `4·eps`.) -/
lemma limiter_final_residual (s : Grid) (hx hy : ℚ) (i j : ℤ) :
    |csum (scLimited s hx hy i j) - 4 * s i j| ≤ 4 * epsq := by
  have hlo : ∀ m, sminF s i j m ≤ s i j := sminF_le s i j
  have hhi : ∀ m, s i j ≤ smaxF s i j m := le_smaxF s i j
  have hE0 : EnvOK (sminF s i j) (smaxF s i j) (scAfter s hx hy i j 0) :=
    EnvOK_scClamp s hx hy i j
  have h1 : scAfter s hx hy i j 1
      = sweep (s i j) (sminF s i j) (smaxF s i j) (scAfter s hx hy i j 0) :=
    scAfter_succ s hx hy i j 0
  have h2 : scAfter s hx hy i j 2
      = sweep (s i j) (sminF s i j) (smaxF s i j) (scAfter s hx hy i j 1) :=
    scAfter_succ s hx hy i j 1
  have h3 : scAfter s hx hy i j 3
      = sweep (s i j) (sminF s i j) (smaxF s i j) (scAfter s hx hy i j 2) :=
    scAfter_succ s hx hy i j 2
  obtain ⟨w1a, w1b, w1c, w1d⟩ :=
    sweep_spec (s i j) (sminF s i j) (smaxF s i j) (scAfter s hx hy i j 0) hE0
  rw [← h1] at w1a w1c
  have hE1 : EnvOK (sminF s i j) (smaxF s i j) (scAfter s hx hy i j 1) := w1c
  obtain ⟨w2a, w2b, w2c, w2d⟩ :=
    sweep_spec (s i j) (sminF s i j) (smaxF s i j) (scAfter s hx hy i j 1) hE1
  rw [← h2] at w2a w2c
  have hE2 : EnvOK (sminF s i j) (smaxF s i j) (scAfter s hx hy i j 2) := w2c
  have hmono2 : |csum (scAfter s hx hy i j 2) - 4 * s i j|
      ≤ |csum (scAfter s hx hy i j 1) - 4 * s i j| := by
    have := sweep_abs_mono (s i j) (sminF s i j) (smaxF s i j)
      (scAfter s hx hy i j 1) hE1
    rw [← h2] at this
    exact this
  have hmono3 : |csum (scAfter s hx hy i j 3) - 4 * s i j|
      ≤ |csum (scAfter s hx hy i j 2) - 4 * s i j| := by
    have := sweep_abs_mono (s i j) (sminF s i j) (smaxF s i j)
      (scAfter s hx hy i j 2) hE2
    rw [← h3] at this
    exact this
  have heps4 : (0:ℚ) < 4 * epsq := by norm_num [epsq]
  by_cases hb1 : |csum (scAfter s hx hy i j 1) - 4 * s i j| ≤ 4 * epsq
  · show |csum (scAfter s hx hy i j 3) - 4 * s i j| ≤ 4 * epsq
    linarith
  · have hsg := sgndifOf_eq_one_or_neg_one (csum (scAfter s hx hy i j 0) - 4 * s i j)
    have habs1 : |csum (scAfter s hx hy i j 1) - 4 * s i j|
        = (csum (scAfter s hx hy i j 1) - 4 * s i j)
          * sgndifOf (csum (scAfter s hx hy i j 0) - 4 * s i j) :=
      abs_eq_mul_sg hsg w1a
    have h1pos : 0 < (csum (scAfter s hx hy i j 1) - 4 * s i j)
        * sgndifOf (csum (scAfter s hx hy i j 0) - 4 * s i j) := by
      rw [← habs1]
      have := lt_of_not_ge hb1
      linarith
    have hSG1 : sgndifOf (csum (scAfter s hx hy i j 1) - 4 * s i j)
        = sgndifOf (csum (scAfter s hx hy i j 0) - 4 * s i j) :=
      sgndifOf_of_pos_mul hsg h1pos
    have hR0pos : 0 < (csum (scAfter s hx hy i j 0) - 4 * s i j)
        * sgndifOf (csum (scAfter s hx hy i j 0) - 4 * s i j) := by
      have hb := w1b
      rw [← h1] at hb
      exact lt_of_lt_of_le h1pos hb
    obtain ⟨m0, hm0pre⟩ := clamp_blame s hx hy i j _ hsg hR0pos
    have hm0 : (scAfter s hx hy i j 0 m0 - s i j)
        * sgndifOf (csum (scAfter s hx hy i j 0) - 4 * s i j) ≤ 0 := hm0pre
    have hex0 : ∃ m, epsq < (scAfter s hx hy i j 0 m - s i j)
        * sgndifOf (csum (scAfter s hx hy i j 0) - 4 * s i j) := by
      by_contra hnone
      push_neg at hnone
      have hds : (csum (scAfter s hx hy i j 0) - 4 * s i j)
          * sgndifOf (csum (scAfter s hx hy i j 0) - 4 * s i j)
          = (scAfter s hx hy i j 0 0 - s i j) * sgndifOf (csum (scAfter s hx hy i j 0) - 4 * s i j)
          + (scAfter s hx hy i j 0 1 - s i j) * sgndifOf (csum (scAfter s hx hy i j 0) - 4 * s i j)
          + (scAfter s hx hy i j 0 2 - s i j) * sgndifOf (csum (scAfter s hx hy i j 0) - 4 * s i j)
          + (scAfter s hx hy i j 0 3 - s i j) * sgndifOf (csum (scAfter s hx hy i j 0) - 4 * s i j) := by
        rw [csum]; ring
      have hsmall : (csum (scAfter s hx hy i j 0) - 4 * s i j)
          * sgndifOf (csum (scAfter s hx hy i j 0) - 4 * s i j) ≤ 4 * epsq := by
        rw [hds]; linarith [hnone 0, hnone 1, hnone 2, hnone 3]
      have hb := w1b
      rw [← h1] at hb
      exact hb1 (by rw [habs1]; linarith)
    have h1pos' : 0 < (csum (sweep (s i j) (sminF s i j) (smaxF s i j)
        (scAfter s hx hy i j 0)) - 4 * s i j)
        * sgndifOf (csum (scAfter s hx hy i j 0) - 4 * s i j) := by
      rw [← h1]; exact h1pos
    obtain ⟨m1, hm1a, hm1b⟩ := sweep_blame (s i j) (sminF s i j) (smaxF s i j)
      (scAfter s hx hy i j 0) hE0 hlo hhi hex0 h1pos'
    rw [← h1] at hm1b
    have hm0c1 : (scAfter s hx hy i j 1 m0 - s i j)
        * sgndifOf (csum (scAfter s hx hy i j 0) - 4 * s i j) ≤ 0 := by
      have hw := w1d m0
      rw [← h1] at hw
      exact dev_mono hw hm0
    by_cases hb2 : |csum (scAfter s hx hy i j 2) - 4 * s i j| ≤ 4 * epsq
    · show |csum (scAfter s hx hy i j 3) - 4 * s i j| ≤ 4 * epsq
      linarith
    · rw [hSG1] at w2a w2b w2d
      have habs2 : |csum (scAfter s hx hy i j 2) - 4 * s i j|
          = (csum (scAfter s hx hy i j 2) - 4 * s i j)
            * sgndifOf (csum (scAfter s hx hy i j 0) - 4 * s i j) :=
        abs_eq_mul_sg hsg w2a
      have h2pos : 0 < (csum (scAfter s hx hy i j 2) - 4 * s i j)
          * sgndifOf (csum (scAfter s hx hy i j 0) - 4 * s i j) := by
        rw [← habs2]
        have := lt_of_not_ge hb2
        linarith
      have hSG2 : sgndifOf (csum (scAfter s hx hy i j 2) - 4 * s i j)
          = sgndifOf (csum (scAfter s hx hy i j 0) - 4 * s i j) :=
        sgndifOf_of_pos_mul hsg h2pos
      have hex1 : ∃ m, epsq < (scAfter s hx hy i j 1 m - s i j)
          * sgndifOf (csum (scAfter s hx hy i j 1) - 4 * s i j) := by
        rw [hSG1]
        by_contra hnone
        push_neg at hnone
        have hds : (csum (scAfter s hx hy i j 1) - 4 * s i j)
            * sgndifOf (csum (scAfter s hx hy i j 0) - 4 * s i j)
            = (scAfter s hx hy i j 1 0 - s i j) * sgndifOf (csum (scAfter s hx hy i j 0) - 4 * s i j)
            + (scAfter s hx hy i j 1 1 - s i j) * sgndifOf (csum (scAfter s hx hy i j 0) - 4 * s i j)
            + (scAfter s hx hy i j 1 2 - s i j) * sgndifOf (csum (scAfter s hx hy i j 0) - 4 * s i j)
            + (scAfter s hx hy i j 1 3 - s i j) * sgndifOf (csum (scAfter s hx hy i j 0) - 4 * s i j) := by
          rw [csum]; ring
        have hsmall : (csum (scAfter s hx hy i j 1) - 4 * s i j)
            * sgndifOf (csum (scAfter s hx hy i j 0) - 4 * s i j) ≤ 4 * epsq := by
          rw [hds]; linarith [hnone 0, hnone 1, hnone 2, hnone 3]
        exact hb1 (by rw [habs1]; linarith)
      have h2pos' : 0 < (csum (sweep (s i j) (sminF s i j) (smaxF s i j)
          (scAfter s hx hy i j 1)) - 4 * s i j)
          * sgndifOf (csum (scAfter s hx hy i j 1) - 4 * s i j) := by
        rw [hSG1, ← h2]; exact h2pos
      obtain ⟨m2, hm2a, hm2b⟩ := sweep_blame (s i j) (sminF s i j) (smaxF s i j)
        (scAfter s hx hy i j 1) hE1 hlo hhi hex1 h2pos'
      rw [hSG1] at hm2a
      rw [hSG1, ← h2] at hm2b
      have hm0c2 : (scAfter s hx hy i j 2 m0 - s i j)
          * sgndifOf (csum (scAfter s hx hy i j 0) - 4 * s i j) ≤ 0 :=
        dev_mono (w2d m0) hm0c1
      have hm1c2 : (scAfter s hx hy i j 2 m1 - s i j)
          * sgndifOf (csum (scAfter s hx hy i j 0) - 4 * s i j) ≤ 0 :=
        dev_mono (w2d m1) hm1b
      have hne10 : m1 ≠ m0 := by
        intro he
        rw [he] at hm1a
        have := epsq_pos
        linarith
      have hne20 : m2 ≠ m0 := by
        intro he
        rw [he] at hm2a
        have := epsq_pos
        linarith
      have hne21 : m2 ≠ m1 := by
        intro he
        rw [he] at hm2a
        have := epsq_pos
        linarith
      have hfin : ∀ (a b c : Fin 4), b ≠ a → c ≠ a → c ≠ b →
          ∃ p, ∀ m, m ≠ p → m = a ∨ m = b ∨ m = c := by decide
      obtain ⟨p, hpall⟩ := hfin m0 m1 m2 hne10 hne20 hne21
      have hp : ∀ m, m ≠ p → ¬ epsq < (scAfter s hx hy i j 2 m - s i j)
          * sgndifOf (csum (scAfter s hx hy i j 2) - 4 * s i j) := by
        intro m hm
        rw [hSG2]
        have := epsq_pos
        rcases hpall m hm with he | he | he <;> rw [he] <;>
          exact not_lt.mpr (by linarith [hm0c2, hm1c2, hm2b])
      have hfinal := sweep_le_one_active (s i j) (sminF s i j) (smaxF s i j)
        (scAfter s hx hy i j 2) hE2 hlo hhi p hp
      rw [← h3] at hfinal
      exact hfinal

/-- A per-corner update touches no other corner. -/
lemma corner_frame (sg : ℚ) (d lo hi : Fin 4 → ℚ) (m : Fin 4)
    (st : ℚ × ℚ × (Fin 4 → ℚ)) (m' : Fin 4) (hm' : m' ≠ m) :
    (corner sg d lo hi m st).2.2 m' = st.2.2 m' := by
  obtain ⟨S, k, c⟩ := st
  simp only [corner]
  exact Function.update_noteq hm' _ _

/-- A per-corner update subtracts the same quantity `redfac·sgndif` from
the running residual and from the corner sum, unconditionally. -/
lemma corner_book (sg : ℚ) (d lo hi : Fin 4 → ℚ) (m : Fin 4)
    (st : ℚ × ℚ × (Fin 4 → ℚ)) :
    (corner sg d lo hi m st).1 - csum (corner sg d lo hi m st).2.2
      = st.1 - csum st.2.2 := by
  obtain ⟨S, k, c⟩ := st
  simp only [corner]
  rw [csum_update]
  ring

/-- The envelope holds after the clamp and after every sweep. -/
lemma EnvOK_scAfter (s : Grid) (hx hy : ℚ) (i j : ℤ) (n : ℕ) :
    EnvOK (sminF s i j) (smaxF s i j) (scAfter s hx hy i j n) := by
  induction n with
  | zero => exact EnvOK_scClamp s hx hy i j
  | succ n ih =>
      rw [scAfter_succ s hx hy i j n]
      exact (sweep_spec (s i j) (sminF s i j) (smaxF s i j)
        (scAfter s hx hy i j n) ih).2.2.1

/-- A corner whose sweep-entry deviation does not exceed `eps` is left
exactly unchanged by the sweep. -/
lemma sweep_frame_inactive (s0 : ℚ) (lo hi c : Fin 4 → ℚ)
    (hEnv : EnvOK lo hi c) (m : Fin 4)
    (hm : ¬ epsq < (c m - s0) * sgndifOf (csum c - 4 * s0)) :
    sweep s0 lo hi c m = c m := by
  have hch : sweep s0 lo hi c
      = (chain4 (sgndifOf (csum c - 4 * s0))
          (fun m => (c m - s0) * sgndifOf (csum c - 4 * s0)) lo hi
          (csum c - 4 * s0,
           kdpInit (fun m => (c m - s0) * sgndifOf (csum c - 4 * s0)), c)).2.2 := by
    simp only [sweep, sumdifInit_eq]
  rw [hch]
  simp only [chain4]
  have hsg := sgndifOf_eq_one_or_neg_one (csum c - 4 * s0)
  have hS0 : 0 ≤ (csum c - 4 * s0) * sgndifOf (csum c - 4 * s0) :=
    mul_sgndifOf_nonneg _
  obtain ⟨s0a, _, s0c, _, _, _, _⟩ := corner_spec (sgndifOf (csum c - 4 * s0))
    (fun m => (c m - s0) * sgndifOf (csum c - 4 * s0)) lo hi 0
    (csum c - 4 * s0,
     kdpInit (fun m => (c m - s0) * sgndifOf (csum c - 4 * s0)), c) hsg hS0 hEnv
  obtain ⟨s1a, _, s1c, _, _, _, _⟩ := corner_spec (sgndifOf (csum c - 4 * s0))
    (fun m => (c m - s0) * sgndifOf (csum c - 4 * s0)) lo hi 1 _ hsg s0a s0c
  obtain ⟨s2a, _, s2c, _, _, _, _⟩ := corner_spec (sgndifOf (csum c - 4 * s0))
    (fun m => (c m - s0) * sgndifOf (csum c - 4 * s0)) lo hi 2 _ hsg s1a s1c
  fin_cases m
  · have hm' : ¬ epsq < (c 0 - s0) * sgndifOf (csum c - 4 * s0) := hm
    have e0 : corner (sgndifOf (csum c - 4 * s0))
        (fun m => (c m - s0) * sgndifOf (csum c - 4 * s0)) lo hi 0
        (csum c - 4 * s0,
         kdpInit (fun m => (c m - s0) * sgndifOf (csum c - 4 * s0)), c)
        = (csum c - 4 * s0,
           kdpInit (fun m => (c m - s0) * sgndifOf (csum c - 4 * s0)), c) :=
      corner_inactive _ _ _ _ _ _ hsg hEnv hm'
    rw [e0, corner_frame _ _ _ _ _ _ _ (by decide),
      corner_frame _ _ _ _ _ _ _ (by decide),
      corner_frame _ _ _ _ _ _ _ (by decide)]
  · have hm' : ¬ epsq < (c 1 - s0) * sgndifOf (csum c - 4 * s0) := hm
    have e1 : corner (sgndifOf (csum c - 4 * s0))
        (fun m => (c m - s0) * sgndifOf (csum c - 4 * s0)) lo hi 1
        (corner (sgndifOf (csum c - 4 * s0))
          (fun m => (c m - s0) * sgndifOf (csum c - 4 * s0)) lo hi 0
          (csum c - 4 * s0,
           kdpInit (fun m => (c m - s0) * sgndifOf (csum c - 4 * s0)), c))
        = corner (sgndifOf (csum c - 4 * s0))
            (fun m => (c m - s0) * sgndifOf (csum c - 4 * s0)) lo hi 0
            (csum c - 4 * s0,
             kdpInit (fun m => (c m - s0) * sgndifOf (csum c - 4 * s0)), c) :=
      corner_inactive _ _ _ _ _ _ hsg s0c hm'
    rw [e1, corner_frame _ _ _ _ _ _ _ (by decide),
      corner_frame _ _ _ _ _ _ _ (by decide),
      corner_frame _ _ _ _ _ _ _ (by decide)]
  · have hm' : ¬ epsq < (c 2 - s0) * sgndifOf (csum c - 4 * s0) := hm
    have e2 : corner (sgndifOf (csum c - 4 * s0))
        (fun m => (c m - s0) * sgndifOf (csum c - 4 * s0)) lo hi 2
        (corner (sgndifOf (csum c - 4 * s0))
          (fun m => (c m - s0) * sgndifOf (csum c - 4 * s0)) lo hi 1
          (corner (sgndifOf (csum c - 4 * s0))
            (fun m => (c m - s0) * sgndifOf (csum c - 4 * s0)) lo hi 0
            (csum c - 4 * s0,
             kdpInit (fun m => (c m - s0) * sgndifOf (csum c - 4 * s0)), c)))
        = corner (sgndifOf (csum c - 4 * s0))
            (fun m => (c m - s0) * sgndifOf (csum c - 4 * s0)) lo hi 1
            (corner (sgndifOf (csum c - 4 * s0))
              (fun m => (c m - s0) * sgndifOf (csum c - 4 * s0)) lo hi 0
              (csum c - 4 * s0,
               kdpInit (fun m => (c m - s0) * sgndifOf (csum c - 4 * s0)), c)) :=
      corner_inactive _ _ _ _ _ _ hsg s1c hm'
    rw [e2, corner_frame _ _ _ _ _ _ _ (by decide),
      corner_frame _ _ _ _ _ _ _ (by decide),
      corner_frame _ _ _ _ _ _ _ (by decide)]
  · have hm' : ¬ epsq < (c 3 - s0) * sgndifOf (csum c - 4 * s0) := hm
    have e3 : corner (sgndifOf (csum c - 4 * s0))
        (fun m => (c m - s0) * sgndifOf (csum c - 4 * s0)) lo hi 3
        (corner (sgndifOf (csum c - 4 * s0))
          (fun m => (c m - s0) * sgndifOf (csum c - 4 * s0)) lo hi 2
          (corner (sgndifOf (csum c - 4 * s0))
            (fun m => (c m - s0) * sgndifOf (csum c - 4 * s0)) lo hi 1
            (corner (sgndifOf (csum c - 4 * s0))
              (fun m => (c m - s0) * sgndifOf (csum c - 4 * s0)) lo hi 0
              (csum c - 4 * s0,
               kdpInit (fun m => (c m - s0) * sgndifOf (csum c - 4 * s0)), c))))
        = corner (sgndifOf (csum c - 4 * s0))
            (fun m => (c m - s0) * sgndifOf (csum c - 4 * s0)) lo hi 2
            (corner (sgndifOf (csum c - 4 * s0))
              (fun m => (c m - s0) * sgndifOf (csum c - 4 * s0)) lo hi 1
              (corner (sgndifOf (csum c - 4 * s0))
                (fun m => (c m - s0) * sgndifOf (csum c - 4 * s0)) lo hi 0
                (csum c - 4 * s0,
                 kdpInit (fun m => (c m - s0) * sgndifOf (csum c - 4 * s0)), c))) :=
      corner_inactive _ _ _ _ _ _ hsg s2c hm'
    rw [e3, corner_frame _ _ _ _ _ _ _ (by decide),
      corner_frame _ _ _ _ _ _ _ (by decide),
      corner_frame _ _ _ _ _ _ _ (by decide)]

/-! ## Constant-field lemmas -/

lemma sint_const (s : Grid) (cval : ℚ) (hs : ∀ i j, s i j = cval) (i j : ℤ) :
    sint s i j = cval := by
  simp only [sint, hs]; ring

lemma sxUnlim_const (s : Grid) (hx cval : ℚ) (hs : ∀ i j, s i j = cval) (i j : ℤ) :
    sxUnlim s hx i j = 0 := by
  simp only [sxUnlim, sint_const s cval hs]; ring

lemma syUnlim_const (s : Grid) (hy cval : ℚ) (hs : ∀ i j, s i j = cval) (i j : ℤ) :
    syUnlim s hy i j = 0 := by
  simp only [syUnlim, sint_const s cval hs]; ring

lemma sxyUnlim_const (s : Grid) (hx hy cval : ℚ) (hs : ∀ i j, s i j = cval) (i j : ℤ) :
    sxyUnlim s hx hy i j = 0 := by
  simp only [sxyUnlim, sint_const s cval hs]; ring

lemma scInit_const (s : Grid) (hx hy cval : ℚ) (hs : ∀ i j, s i j = cval)
    (i j : ℤ) (m : Fin 4) : scInit s hx hy i j m = cval := by
  fin_cases m <;>
    simp only [scInit, sxUnlim_const s hx cval hs, syUnlim_const s hy cval hs,
      sxyUnlim_const s hx hy cval hs, hs] <;> ring

lemma sminF_const (s : Grid) (cval : ℚ) (hs : ∀ i j, s i j = cval)
    (i j : ℤ) (m : Fin 4) : sminF s i j m = cval := by
  fin_cases m <;> simp [sminF, hs]

lemma smaxF_const (s : Grid) (cval : ℚ) (hs : ∀ i j, s i j = cval)
    (i j : ℤ) (m : Fin 4) : smaxF s i j m = cval := by
  fin_cases m <;> simp [smaxF, hs]

lemma scClamp_const (s : Grid) (hx hy cval : ℚ) (hs : ∀ i j, s i j = cval)
    (i j : ℤ) (m : Fin 4) : scClamp s hx hy i j m = cval := by
  simp only [scClamp, scInit_const s hx hy cval hs, sminF_const s cval hs,
    smaxF_const s cval hs]
  simp

lemma scAfter_const (s : Grid) (hx hy cval : ℚ) (hs : ∀ i j, s i j = cval)
    (i j : ℤ) (n : ℕ) : ∀ m, scAfter s hx hy i j n m = cval := by
  induction n with
  | zero => exact scClamp_const s hx hy cval hs i j
  | succ n ih =>
      intro m
      rw [scAfter_succ]
      have hin : ¬ epsq < (scAfter s hx hy i j n m - s i j)
          * sgndifOf (csum (scAfter s hx hy i j n) - 4 * s i j) := by
        rw [ih m, hs i j, sub_self, zero_mul]
        exact not_lt.mpr (le_of_lt epsq_pos)
      rw [sweep_frame_inactive (s i j) _ _ _ (EnvOK_scAfter s hx hy i j n) m hin]
      exact ih m

lemma slope_const (s : Grid) (hx hy cval : ℚ) (hs : ∀ i j, s i j = cval) :
    ∀ (i j : ℤ) (comp : Fin 3), slope s hx hy i j comp = 0 := by
  intro i j comp
  fin_cases comp <;>
    simp only [slope, scLimited, scAfter_const s hx hy cval hs i j 3] <;> ring

/-! ## Claim theorems -/

/-- Claim C3. The Gamma-plus integral on an x-face is computed exactly as
the specification states it: same donor selection, same transverse
upwind rule for `jup`, `jsign`, `u2`, and the same polynomial. -/
theorem claim3_gampX_matches_spec (s u v : Grid) (slp : ℤ → ℤ → Fin 3 → ℚ)
    (hx hy dt : ℚ) (i j : ℤ) :
    gampX s u v slp hx hy dt i j = gampXFromSpec s u v slp hx hy dt i j := by
  simp only [gampX, gampXFromSpec]
  split_ifs <;> ring

/-- Claim C4. The x-edge state equals the specification's
`stem − vdif − vaddif + ½·dt·stem·divu + ½·dt·force(iup,j)` with the
listed formulas for the ingredients and the strict upwind donor rule. -/
theorem claim4_xedge_matches_spec (s u v force : Grid) (slp : ℤ → ℤ → Fin 3 → ℚ)
    (hx hy dt : ℚ) (i j : ℤ) :
    xedgeOf s u v force slp hx hy dt i j
      = xedgeFromSpec s u v force slp hx hy dt i j := by
  simp only [xedgeOf, xedgeFromSpec]
  split_ifs <;> ring

/-- Claim C6. `ComputeEdgeState` aborts with the exact diagnostic message
iff invoked with `is_conservative = 0`; otherwise it proceeds to compute
slopes and edge states. -/
theorem claim6_conservative_abort (s u v force : Grid) (hx hy dt : ℚ) (ic : Int) :
    ComputeEdgeState s u v force hx hy dt ic
      = (if ic = 0 then Except.error conservativeMsg
         else Except.ok (ComputeConc s u v force hx hy dt))
    ∧ ((ComputeEdgeState s u v force hx hy dt ic
        = Except.error conservativeMsg) ↔ ic = 0) := by
  constructor
  · rfl
  · constructor
    · intro h
      by_contra hic
      simp only [ComputeEdgeState, if_neg hic] at h
      exact Except.noConfusion h
    · intro h
      simp only [ComputeEdgeState, if_pos h]

/-- Witness for C6: the non-conservative call aborts with the message. -/
theorem claim6_witness :
    ComputeEdgeState zeroGrid zeroGrid zeroGrid zeroGrid 1 1 1 0
      = Except.error conservativeMsg :=
  (claim6_conservative_abort zeroGrid zeroGrid zeroGrid zeroGrid 1 1 1 0).2.mpr rfl

/-- Claim C7. The factor `sgndif` is the sign of the residual
`sumdif = 4·(mean(sc) − s(i,j))`, it is `+1` whenever the residual is
zero (and for any nonnegative residual), `−1` for a negative residual,
and the sweep uses exactly this sign. -/
theorem claim7_sgndif_of_residual (x s0 : ℚ) (lo hi c : Fin 4 → ℚ) :
    (0 ≤ x → sgndifOf x = 1)
    ∧ (x = 0 → sgndifOf x = 1)
    ∧ (x < 0 → sgndifOf x = -1)
    ∧ sumdifInit s0 c = 4 * ((c 0 + c 1 + c 2 + c 3) / 4 - s0)
    ∧ sweep s0 lo hi c
      = (chain4 (sgndifOf (sumdifInit s0 c))
          (fun m => (c m - s0) * sgndifOf (sumdifInit s0 c)) lo hi
          (sumdifInit s0 c,
           kdpInit (fun m => (c m - s0) * sgndifOf (sumdifInit s0 c)), c)).2.2 := by
  refine ⟨?_, ?_, ?_, by unfold sumdifInit; ring, rfl⟩
  · intro h
    unfold sgndifOf
    rw [if_neg (not_lt.mpr h)]
  · intro h
    subst h
    unfold sgndifOf
    rw [if_neg (lt_irrefl 0)]
  · intro h
    unfold sgndifOf
    rw [if_pos h]

/-- Witness for C7 at concrete residuals `0` and `-2`. -/
theorem claim7_witness :
    ((0:ℚ) = 0 ∧ sgndifOf 0 = 1) ∧ ((-2:ℚ) < 0 ∧ sgndifOf (-2) = -1) :=
  ⟨⟨rfl, (claim7_sgndif_of_residual 0 0 (fun _ => 0) (fun _ => 0)
      (fun _ => 0)).2.1 rfl⟩,
   ⟨by norm_num, (claim7_sgndif_of_residual (-2) 0 (fun _ => 0) (fun _ => 0)
      (fun _ => 0)).2.2.1 (by norm_num)⟩⟩

/-- Claim C9. The bookkeeping identity: `sumdif` starts the sweep equal to
`sc(1)+sc(2)+sc(3)+sc(4) − 4·s(i,j)`, every per-corner update subtracts
the same amount from `sumdif` and from the corner sum, and consequently
through the whole sweep the running `sumdif` equals the current corner
sum minus `4·s(i,j)`. -/
theorem claim9_sumdif_bookkeeping (s0 sg : ℚ) (d lo hi c : Fin 4 → ℚ) (m : Fin 4)
    (st : ℚ × ℚ × (Fin 4 → ℚ)) :
    sumdifInit s0 c = csum c - 4 * s0
    ∧ ((corner sg d lo hi m st).1 - csum (corner sg d lo hi m st).2.2
        = st.1 - csum st.2.2)
    ∧ ((chain4 sg d lo hi (sumdifInit s0 c, kdpInit d, c)).1
        = csum (chain4 sg d lo hi (sumdifInit s0 c, kdpInit d, c)).2.2 - 4 * s0) := by
  refine ⟨sumdifInit_eq s0 c, corner_book sg d lo hi m st, ?_⟩
  have h0 := corner_book sg d lo hi 0 (sumdifInit s0 c, kdpInit d, c)
  have h1 := corner_book sg d lo hi 1
    (corner sg d lo hi 0 (sumdifInit s0 c, kdpInit d, c))
  have h2 := corner_book sg d lo hi 2
    (corner sg d lo hi 1 (corner sg d lo hi 0 (sumdifInit s0 c, kdpInit d, c)))
  have h3 := corner_book sg d lo hi 3
    (corner sg d lo hi 2
      (corner sg d lo hi 1 (corner sg d lo hi 0 (sumdifInit s0 c, kdpInit d, c))))
  have hs := sumdifInit_eq s0 c
  simp only [chain4]
  dsimp only at h0
  linarith

/-- Claim C10. A corner whose deviation does not exceed `eps` at sweep
entry is left exactly unchanged by that sweep, and the clamp bound
`redmax` at that corner is nonnegative because the iteration keeps every
corner inside its envelope. -/
theorem claim10_inactive_corner_unchanged (s : Grid) (hx hy : ℚ) (i j : ℤ)
    (n : ℕ) (m : Fin 4)
    (hm : (scAfter s hx hy i j n m - s i j)
        * sgndifOf (csum (scAfter s hx hy i j n) - 4 * s i j) ≤ epsq) :
    scAfter s hx hy i j (n+1) m = scAfter s hx hy i j n m
    ∧ 0 ≤ (if 0 < sgndifOf (csum (scAfter s hx hy i j n) - 4 * s i j)
           then scAfter s hx hy i j n m - sminF s i j m
           else smaxF s i j m - scAfter s hx hy i j n m) := by
  have hE := EnvOK_scAfter s hx hy i j n
  constructor
  · rw [scAfter_succ]
    exact sweep_frame_inactive (s i j) _ _ _ hE m (not_lt.mpr hm)
  · rcases sgndifOf_eq_one_or_neg_one (csum (scAfter s hx hy i j n) - 4 * s i j)
      with h | h <;> rw [h]
    · rw [if_pos (by norm_num : (0:ℚ) < 1)]
      have := (hE m).1
      linarith
    · rw [if_neg (by norm_num : ¬ (0:ℚ) < -1)]
      have := (hE m).2
      linarith

/-- Witness for C10 at the zero grid, sweep 1, corner 0. -/
theorem claim10_witness :
    ((scAfter zeroGrid 1 1 0 0 0 0 - zeroGrid 0 0)
        * sgndifOf (csum (scAfter zeroGrid 1 1 0 0 0) - 4 * zeroGrid 0 0) ≤ epsq)
    ∧ (scAfter zeroGrid 1 1 0 0 1 0 = scAfter zeroGrid 1 1 0 0 0 0
       ∧ 0 ≤ (if 0 < sgndifOf (csum (scAfter zeroGrid 1 1 0 0 0) - 4 * zeroGrid 0 0)
              then scAfter zeroGrid 1 1 0 0 0 0 - sminF zeroGrid 0 0 0
              else smaxF zeroGrid 0 0 0 - scAfter zeroGrid 1 1 0 0 0 0)) := by
  have h : (scAfter zeroGrid 1 1 0 0 0 0 - zeroGrid 0 0)
      * sgndifOf (csum (scAfter zeroGrid 1 1 0 0 0) - 4 * zeroGrid 0 0) ≤ epsq := by
    norm_num +decide [scAfter, Function.iterate_zero, sgndifOf, csum, epsq,
      scClamp, scInit, sminF, smaxF, sxUnlim, syUnlim, sxyUnlim, sint, zeroGrid,
      min_def, max_def]
  exact ⟨h, claim10_inactive_corner_unchanged zeroGrid 1 1 0 0 0 0 h⟩

/-- Claim C2. Constant preservation: if the state is identically `c` and
the forcing identically zero, then every corner `sint` equals `c`, every
slope component is zero, and every x- and y-edge state equals `c`, for
any face velocities, cell sizes and time step. -/
theorem claim2_constant_preservation (s u v force : Grid) (hx hy dt cval : ℚ)
    (hhx : 0 < hx) (hhy : 0 < hy)
    (hs : ∀ i j, s i j = cval) (hf : ∀ i j, force i j = 0) (i j : ℤ) :
    sint s i j = cval
    ∧ (∀ comp, slope s hx hy i j comp = 0)
    ∧ xedgeOf s u v force (slope s hx hy) hx hy dt i j = cval
    ∧ yedgeOf s u v force (slope s hx hy) hx hy dt i j = cval := by
  have hsl := slope_const s hx hy cval hs
  refine ⟨sint_const s cval hs i j, fun comp => hsl i j comp, ?_, ?_⟩
  · simp only [xedgeOf, gampX, gammX, hsl, hs, hf]
    split_ifs <;> ring
  · simp only [yedgeOf, gampY, gammY, hsl, hs, hf]
    split_ifs <;> ring

/-- Witness for C2 with `c = 22/7` and nonzero face velocities. -/
theorem claim2_witness :
    (0:ℚ) < 1
    ∧ (sint (fun _ _ => (22/7 : ℚ)) 0 0 = 22/7
       ∧ (∀ comp, slope (fun _ _ => (22/7 : ℚ)) 1 1 0 0 comp = 0)
       ∧ xedgeOf (fun _ _ => (22/7 : ℚ)) (fun _ _ => 1/2) (fun _ _ => -1/4)
           (fun _ _ => 0) (slope (fun _ _ => (22/7 : ℚ)) 1 1) 1 1 (1/10) 0 0 = 22/7
       ∧ yedgeOf (fun _ _ => (22/7 : ℚ)) (fun _ _ => 1/2) (fun _ _ => -1/4)
           (fun _ _ => 0) (slope (fun _ _ => (22/7 : ℚ)) 1 1) 1 1 (1/10) 0 0 = 22/7) :=
  ⟨by norm_num,
   claim2_constant_preservation (fun _ _ => 22/7) (fun _ _ => 1/2) (fun _ _ => -1/4)
     (fun _ _ => 0) 1 1 (1/10) (22/7) (by norm_num) (by norm_num)
     (fun _ _ => rfl) (fun _ _ => rfl) 0 0⟩

/-- Claim C1, counterexample. At this grid (cell `(0,0)`, `hx = hy = 1`)
the mean of the corner values after the first limiter sweep misses
`s(0,0)` by `3/50`, far more than `10·eps`: the claim's "after each
sweep" bound is false. -/
theorem claim1_counterexample :
    ¬ |(scAfter c1CexGrid 1 1 0 0 1 0 + scAfter c1CexGrid 1 1 0 0 1 1
        + scAfter c1CexGrid 1 1 0 0 1 2 + scAfter c1CexGrid 1 1 0 0 1 3) / 4
       - c1CexGrid 0 0| ≤ 10 * epsq := by
  norm_num +decide [scAfter, Function.iterate_succ, Function.iterate_zero,
    Function.comp, sweepCell, sweep, chain4, corner, sumdifInit, kdpInit,
    sgndifOf, epsq, scClamp, scInit, sminF, smaxF, sxUnlim, syUnlim, sxyUnlim,
    sint, c1CexGrid, Function.update_apply, min_def, max_def, abs]

/-- Claim C1, amended. After the limiter (the initial clamp followed by
all three redistribution sweeps), every reconstructed corner value lies
inside its min/max envelope, and the arithmetic mean of the four corner
values equals `s(i,j)` to within `10·eps` after the final sweep.  (The
original claim asserted the mean bound after *each* sweep; an
intermediate sweep can leave a much larger residual.) -/
theorem claim1_envelope_and_mean_after_limiter (s : Grid) (hx hy : ℚ) (i j : ℤ) :
    (∀ m, sminF s i j m ≤ scLimited s hx hy i j m
        ∧ scLimited s hx hy i j m ≤ smaxF s i j m)
    ∧ |(scLimited s hx hy i j 0 + scLimited s hx hy i j 1
        + scLimited s hx hy i j 2 + scLimited s hx hy i j 3) / 4 - s i j|
        ≤ 10 * epsq := by
  constructor
  · exact EnvOK_scAfter s hx hy i j 3
  · have h := limiter_final_residual s hx hy i j
    have he : (scLimited s hx hy i j 0 + scLimited s hx hy i j 1
        + scLimited s hx hy i j 2 + scLimited s hx hy i j 3) / 4 - s i j
        = (csum (scLimited s hx hy i j) - 4 * s i j) / 4 := by
      rw [csum]; ring
    rw [he, abs_div, abs_of_nonneg (by norm_num : (0:ℚ) ≤ 4),
      div_le_iff (by norm_num : (0:ℚ) < 4)]
    have := epsq_pos
    linarith

/-- Claim C8, counterexample. With `s(i,j) = i³`, zero velocities and zero
forcing, the x-edge state at face `(3,0)` is `27/2`, while the claimed
low-side trace `s(2,0) + ½·hx·sx(2,0)` is `14`: the strict upwind test
sends `u = 0` to the high-side donor, not the low side. -/
theorem claim8_counterexample :
    xedgeOf c8CexS zeroGrid zeroGrid zeroGrid (slope c8CexS 1 1) 1 1 (1/10) 3 0
      ≠ c8CexS 2 0 + (1/2) * 1 * slope c8CexS 1 1 2 0 0 := by
  norm_num +decide [xedgeOf, gampX, gammX, zeroGrid,
    slope, scLimited, scAfter, Function.iterate_succ, Function.iterate_zero,
    Function.comp, sweepCell, sweep, chain4, corner, sumdifInit, kdpInit,
    sgndifOf, epsq, scClamp, scInit, sminF, smaxF, sxUnlim, syUnlim, sxyUnlim,
    sint, c8CexS, Function.update_apply, min_def, max_def]

/-- Claim C8, amended. If `u_face ≡ 0`, `v_face ≡ 0` and `force ≡ 0`,
then the `vdif`, `vaddif` and `divu` contributions vanish and the x-edge
state reduces to the trace from the cell on the *high* side of the face
(the strict `> 0` upwind test sends a zero velocity to the `else`
branch): `xedge(i,j) = s(i,j) − ½·hx·sx(i,j)`. -/
theorem claim8_zero_velocity_amended (s u v force : Grid) (hx hy dt : ℚ)
    (hu : ∀ i j, u i j = 0) (hv : ∀ i j, v i j = 0) (hf : ∀ i j, force i j = 0)
    (i j : ℤ) :
    xedgeOf s u v force (slope s hx hy) hx hy dt i j
      = s i j - (1/2) * hx * slope s hx hy i j 0 := by
  simp only [xedgeOf, gampX, gammX, hu, hv, hf, mul_zero, zero_mul,
    lt_self_iff_false, if_false]
  ring

/-- Witness for C8 (amended) at the cubic grid, face `(3,0)`. -/
theorem claim8_witness :
    zeroGrid 0 0 = 0
    ∧ xedgeOf c8CexS zeroGrid zeroGrid zeroGrid (slope c8CexS 1 1) 1 1 (1/10) 3 0
        = c8CexS 3 0 - (1/2) * 1 * slope c8CexS 1 1 3 0 0 :=
  ⟨rfl, claim8_zero_velocity_amended c8CexS zeroGrid zeroGrid zeroGrid 1 1 (1/10)
    (fun _ _ => rfl) (fun _ _ => rfl) (fun _ _ => rfl) 3 0⟩

end BDS
